import Mathlib

/-!
# Verification of the govte core (byte-stream VTE parser and processor)

Shallow embedding of the govte Go sources:
* `Params` — the fixed-capacity parameter store (params.go),
* `Parser` — the byte-driven state machine (parser source file),
* `Processor` — the semantic interpreter mapping low-level Performer
  events to Handler calls (processor source file).

Bytes are modelled as `Nat` (call sites keep them < 256), Go `uint16`
arithmetic is modelled with explicit `% 65536`, runes as `Nat` code
points.  Performer/Handler callbacks are modelled as explicit event
lists returned alongside the updated state.  Go fixed-size arrays with
a length counter are modelled as lists holding exactly the live prefix.
-/

namespace GoVTE

/-- Bound constants from the source (`MaxParams` in params.go, the rest
in the parser file). -/
def MaxParams : Nat := 32

def MaxIntermediates : Nat := 2

def MaxOSCRaw : Nat := 1024

def MaxOSCParams : Nat := 16

/-- `utf8.RuneError` (U+FFFD). -/
def RuneError : Nat := 0xFFFD

/-- Parser states, from `type State uint8` in the source. -/
inductive State where
  | ground
  | escape
  | escapeIntermediate
  | csiEntry
  | csiParam
  | csiIntermediate
  | csiIgnore
  | oscString
  | dcsEntry
  | dcsParam
  | dcsIntermediate
  | dcsPassthrough
  | dcsIgnore
  | sosPmApcString
deriving DecidableEq, Repr

/-- The parameter store (`type Params struct` in params.go).  The Go
struct holds two arrays of `MaxParams` entries plus a length counter
`len`; only the first `len` entries are ever read, so we model the two
arrays as lists of length `len` (`subparams` and `params` in lockstep).
`currentSubparams` is kept for fidelity although nothing reads it. -/
structure Params where
  subparams : List Nat
  params : List Nat
  currentSubparams : Nat
deriving DecidableEq, Repr

namespace Params

/-- `NewParams`. -/
def new : Params := ⟨[], [], 0⟩

/-- `Len`. -/
def Len (p : Params) : Nat := p.params.length

/-- `IsEmpty`. -/
def IsEmpty (p : Params) : Bool := p.Len == 0

/-- `IsFull`. -/
def IsFull (p : Params) : Bool := decide (MaxParams ≤ p.Len)

/-- `Clear`. -/
def Clear : Params := ⟨[], [], 0⟩

/-- `Push`: start a new parameter group (no-op when full). -/
def Push (p : Params) (value : Nat) : Params :=
  if p.IsFull then p
  else ⟨p.subparams ++ [1], p.params ++ [value], 0⟩

/-- Index of the last entry of `l` that is nonzero (the Go code scans
`subparams` downward from `len-1` for the current group start). -/
def lastNonzeroIdx : List Nat → Option Nat
  | [] => none
  | x :: xs =>
    match lastNonzeroIdx xs with
    | some i => some (i + 1)
    | none => if x ≠ 0 then some 0 else none

/-- `Extend`: append a sub-parameter to the current group. -/
def Extend (p : Params) (value : Nat) : Params :=
  if p.IsFull then p
  else if p.params.length == 0 then p.Push value
  else
    match lastNonzeroIdx p.subparams with
    | none => p.Push value
    | some i =>
      ⟨(p.subparams.set i (p.subparams.getD i 0 + 1)) ++ [0],
       p.params ++ [value],
       p.currentSubparams + 1⟩

/-- Worker for `Iter`: walks `subparams`/`params` in lockstep.  At a
group start of declared count `c` it collects `c` values (truncated at
the end of the store) and skips `c` slots; a stray zero count skips a
single slot. -/
def iterGo : Nat → List Nat → List Nat → List (List Nat)
  | 0, _, _ => []
  | _ + 1, [], _ => []
  | fuel + 1, c :: cs, vs =>
    if c = 0 then iterGo fuel cs (vs.drop 1)
    else (vs.take c) :: iterGo fuel (cs.drop (c - 1)) (vs.drop c)

/-- `Iter`: the ordered sequence of parameter groups.  Each loop
iteration of the Go code consumes at least one `subparams` slot, so
`subparams.length` fuel is exact (`iterGo_congr`); the fuel only makes
the recursion structural. -/
def Iter (p : Params) : List (List Nat) :=
  iterGo p.subparams.length p.subparams p.params


end Params

/-- Low-level Performer events (`Performer` interface).  `Hook` and
`CsiDispatch` receive a `*Params` pointer in Go; the observable
snapshot at call time is its `Iter()` grouping, which is what the event
records. -/
inductive PEvent where
  | print (c : Nat)
  | execute (b : Nat)
  | hook (params : List (List Nat)) (intermediates : List Nat) (ignore : Bool) (action : Nat)
  | put (b : Nat)
  | unhook
  | oscDispatch (params : List (List Nat)) (bellTerminated : Bool)
  | csiDispatch (params : List (List Nat)) (intermediates : List Nat) (ignore : Bool) (action : Nat)
  | escDispatch (intermediates : List Nat) (ignore : Bool) (b : Nat)
deriving DecidableEq, Repr

/-- The parser state (`type Parser struct`).  `intermediateIdx` is
written but never read in the source and is omitted.  `partialUTF8`
models the live prefix `partialUTF8[:partialUTF8Len]`. -/
structure Parser where
  state : State
  intermediates : List Nat
  params : Params
  currentParam : Nat
  hasCurrentParam : Bool
  inSubparam : Bool
  oscRaw : List Nat
  oscParams : List Nat
  oscNumParams : Nat
  ignoring : Bool
  pendingESC : Bool
  partialUTF8 : List Nat
deriving DecidableEq, Repr

namespace Parser

/-- `NewParser`. -/
def new : Parser :=
  { state := .ground
    intermediates := []
    params := Params.new
    currentParam := 0
    hasCurrentParam := false
    inSubparam := false
    oscRaw := []
    oscParams := []
    oscNumParams := 0
    ignoring := false
    pendingESC := false
    partialUTF8 := [] }

/-- `resetParams`. -/
def resetParams (p : Parser) : Parser :=
  { p with
    params := Params.Clear
    intermediates := []
    ignoring := false
    oscRaw := []
    oscParams := []
    oscNumParams := 0
    currentParam := 0
    hasCurrentParam := false
    inSubparam := false }

/-- `collectIntermediate`. -/
def collectIntermediate (p : Parser) (b : Nat) : Parser :=
  if p.intermediates.length < MaxIntermediates then
    { p with intermediates := p.intermediates ++ [b] }
  else
    { p with ignoring := true }

/-- `paramDigit`.  `currentParam` is a Go `uint16`; the accumulation
`currentParam*10 + digit` is therefore taken modulo `2^16` before the
9999 cap is applied. -/
def paramDigit (p : Parser) (b : Nat) : Parser :=
  let digit := b - 0x30
  if !p.hasCurrentParam then
    { p with currentParam := digit, hasCurrentParam := true }
  else
    let v := (p.currentParam * 10 + digit) % 65536
    { p with currentParam := if v > 9999 then 9999 else v }

/-- `paramSeparator` (a `;`). -/
def paramSeparator (p : Parser) : Parser :=
  let p :=
    if p.hasCurrentParam then
      if p.inSubparam then
        if p.params.IsFull then { p with ignoring := true }
        else { p with params := p.params.Extend p.currentParam }
      else
        if p.params.IsFull then { p with ignoring := true }
        else { p with params := p.params.Push p.currentParam }
    else if !p.inSubparam then
      if p.params.IsFull then { p with ignoring := true }
      else { p with params := p.params.Push 0 }
    else p
  { p with currentParam := 0, hasCurrentParam := false, inSubparam := false }

/-- `paramSubparam` (a `:`). -/
def paramSubparam (p : Parser) : Parser :=
  if p.hasCurrentParam then
    let p :=
      if !p.inSubparam then
        if p.params.IsFull then { p with ignoring := true }
        else { p with params := p.params.Push p.currentParam, inSubparam := true }
      else
        if p.params.IsFull then { p with ignoring := true }
        else { p with params := p.params.Extend p.currentParam }
    { p with currentParam := 0, hasCurrentParam := false }
  else
    if !p.inSubparam then
      if p.params.IsFull then { p with ignoring := true }
      else { p with params := p.params.Push 0, inSubparam := true }
    else
      if p.params.IsFull then { p with ignoring := true }
      else { p with params := p.params.Extend 0 }

/-- `csiDispatch`: finalize the pending parameter, emit the event,
reset.  (The finalizing `Push`/`Extend` are the `Params` methods, whose
internal `IsFull` check silently drops the value when the store is
full — no `ignoring` flag is set here.) -/
def csiDispatch (p : Parser) (action : Nat) : Parser × List PEvent :=
  let p :=
    if p.hasCurrentParam then
      if p.inSubparam then { p with params := p.params.Extend p.currentParam }
      else { p with params := p.params.Push p.currentParam }
    else p
  (p.resetParams, [.csiDispatch p.params.Iter p.intermediates p.ignoring action])

/-- The parameter-finalizing block duplicated in `advanceDCSEntry`,
`advanceDCSParam` and `advanceDCSIntermediate` before `Hook`. -/
def finalizeDCSParam (p : Parser) : Parser :=
  if p.hasCurrentParam then
    if p.inSubparam then
      if p.params.IsFull then { p with ignoring := true }
      else { p with params := p.params.Extend p.currentParam }
    else
      if p.params.IsFull then { p with ignoring := true }
      else { p with params := p.params.Push p.currentParam }
  else p

/-- `oscPut`. -/
def oscPut (p : Parser) (b : Nat) : Parser :=
  if p.oscRaw.length < MaxOSCRaw then
    if b = 0x3B ∧ p.oscNumParams < MaxOSCParams then
      { p with oscParams := p.oscParams ++ [p.oscRaw.length],
               oscNumParams := p.oscNumParams + 1 }
    else
      { p with oscRaw := p.oscRaw ++ [b] }
  else p

/-- Worker for `oscDispatch`: carve `raw` at the recorded boundaries
(Go: `for _, end := range p.oscParams { if end > start && end <= len }`
then the final segment). -/
def buildOscParams (raw : List Nat) : List Nat → Nat → List (List Nat)
  | [], start => if start < raw.length then [raw.drop start] else []
  | e :: es, start =>
    if start < e ∧ e ≤ raw.length then
      ((raw.drop start).take (e - start)) :: buildOscParams raw es e
    else buildOscParams raw es start

/-- `oscDispatch`. -/
def oscDispatch (p : Parser) (bellTerminated : Bool) : Parser × List PEvent :=
  (p.resetParams,
   [.oscDispatch (buildOscParams p.oscRaw p.oscParams 0) bellTerminated])

end Parser

/-- Second-byte accept range per first byte, following Go
`unicode/utf8`'s `first`/`acceptRanges` tables: result `(size, lo, hi)`
with `size = 0` for an invalid starter. -/
def utf8SizeAccept (b0 : Nat) : Nat × Nat × Nat :=
  if b0 < 0xC2 then (0, 0, 0)
  else if b0 ≤ 0xDF then (2, 0x80, 0xBF)
  else if b0 = 0xE0 then (3, 0xA0, 0xBF)
  else if b0 ≤ 0xEC then (3, 0x80, 0xBF)
  else if b0 = 0xED then (3, 0x80, 0x9F)
  else if b0 ≤ 0xEF then (3, 0x80, 0xBF)
  else if b0 = 0xF0 then (4, 0x90, 0xBF)
  else if b0 ≤ 0xF3 then (4, 0x80, 0xBF)
  else if b0 = 0xF4 then (4, 0x80, 0x8F)
  else (0, 0, 0)

/-- Go `utf8.DecodeRune`: returns `(rune, size)`; `(RuneError, 1)` for
invalid or incomplete input, `(RuneError, 0)` for empty input. -/
def decodeRune : List Nat → Nat × Nat
  | [] => (RuneError, 0)
  | b0 :: rest =>
    if b0 < 0x80 then (b0, 1)
    else
      let s := utf8SizeAccept b0
      if s.1 = 0 then (RuneError, 1)
      else if rest.length + 1 < s.1 then (RuneError, 1)
      else
        match rest with
        | [] => (RuneError, 1)
        | b1 :: rest2 =>
          if b1 < s.2.1 ∨ s.2.2 < b1 then (RuneError, 1)
          else if s.1 = 2 then ((b0 % 0x20) * 0x40 + b1 % 0x40, 2)
          else
            match rest2 with
            | [] => (RuneError, 1)
            | b2 :: rest3 =>
              if b2 < 0x80 ∨ 0xBF < b2 then (RuneError, 1)
              else if s.1 = 3 then
                ((b0 % 0x10) * 0x1000 + (b1 % 0x40) * 0x40 + b2 % 0x40, 3)
              else
                match rest3 with
                | [] => (RuneError, 1)
                | b3 :: _ =>
                  if b3 < 0x80 ∨ 0xBF < b3 then (RuneError, 1)
                  else
                    ((b0 % 8) * 0x40000 + (b1 % 0x40) * 0x1000 +
                      (b2 % 0x40) * 0x40 + b3 % 0x40, 4)

/-- Go `utf8.FullRune`. -/
def fullRune : List Nat → Bool
  | [] => false
  | b0 :: rest =>
    if b0 < 0x80 then true
    else
      let s := utf8SizeAccept b0
      let sz := if s.1 = 0 then 1 else s.1
      if rest.length + 1 ≥ sz then true
      else
        match rest with
        | [] => false
        | b1 :: rest2 =>
          if b1 < s.2.1 ∨ s.2.2 < b1 then true
          else
            match rest2 with
            | [] => false
            | b2 :: _ => if b2 < 0x80 ∨ 0xBF < b2 then true else false

namespace Parser

/-- `handleUTF8`: returns the updated parser, emitted events and the
number of input bytes consumed. -/
def handleUTF8 (p : Parser) (bytes : List Nat) : Parser × List PEvent × Nat :=
  match bytes with
  | [] => (p, [], 0)
  | _ :: _ =>
    let d := decodeRune bytes
    if d.1 = RuneError then
      if d.2 = 1 ∧ ¬ fullRune bytes then
        ({ p with partialUTF8 := bytes.take 4 }, [], bytes.length)
      else
        (p, [.print RuneError], 1)
    else
      (p, [.print d.1], d.2)

/-- `advancePartialUTF8`. -/
def advancePartialUTF8 (p : Parser) (bytes : List Nat) : Parser × List PEvent × Nat :=
  match bytes with
  | [] => (p, [], 0)
  | b0 :: _ =>
    if b0 < 0x20 ∨ b0 = 0x7F ∨ b0 = 0x1B then
      ({ p with partialUTF8 := [] }, [.print RuneError], 0)
    else
      let needed := 4 - p.partialUTF8.length
      let n := min needed bytes.length
      let buf := p.partialUTF8 ++ bytes.take n
      let d := decodeRune buf
      if d.1 ≠ RuneError then
        ({ p with partialUTF8 := [] }, [.print d.1], d.2 - p.partialUTF8.length)
      else if d.2 = 1 ∧ ¬ fullRune buf then
        ({ p with partialUTF8 := buf }, [], n)
      else
        ({ p with partialUTF8 := [] }, [.print RuneError], n)

/-- `advanceGround`: processes bytes until a state change (or a UTF-8
run) and reports how many bytes were consumed. -/
def advanceGround : Parser → List Nat → Parser × List PEvent × Nat
  | p, [] => (p, [], 0)
  | p, b :: rest =>
    if b = 0x1B then
      (({ p with state := .escape }).resetParams, [], 1)
    else if b < 0x20 then
      let r := advanceGround p rest
      (r.1, .execute b :: r.2.1, r.2.2 + 1)
    else if 0x20 ≤ b ∧ b < 0x7F then
      let r := advanceGround p rest
      (r.1, .print b :: r.2.1, r.2.2 + 1)
    else if 0x80 ≤ b then
      if 0xC0 ≤ b then
        p.handleUTF8 (b :: rest)
      else if b = 0x90 then
        (({ p with state := .dcsEntry }).resetParams, [], 1)
      else if b = 0x9B then
        (({ p with state := .csiEntry }).resetParams, [], 1)
      else if b = 0x9D then
        (({ p with state := .oscString }).resetParams, [], 1)
      else
        let r := advanceGround p rest
        (r.1, .print RuneError :: r.2.1, r.2.2 + 1)
    else
      -- b = 0x7F: DEL, ignored
      let r := advanceGround p rest
      (r.1, r.2.1, r.2.2 + 1)

/-- `advanceEscape`. -/
def advanceEscape (p : Parser) (b : Nat) : Parser × List PEvent :=
  if b < 0x20 then (p, [.execute b])
  else if 0x20 ≤ b ∧ b ≤ 0x2F then
    ({ p.collectIntermediate b with state := .escapeIntermediate }, [])
  else if 0x30 ≤ b ∧ b ≤ 0x4F then
    ({ p with state := .ground }, [.escDispatch p.intermediates p.ignoring b])
  else if b = 0x5B then ({ p with state := .csiEntry }, [])
  else if b = 0x5D then ({ p with state := .oscString }, [])
  else if b = 0x50 then ({ p with state := .dcsEntry }, [])
  else if b = 0x58 ∨ b = 0x5E ∨ b = 0x5F then
    ({ p with state := .sosPmApcString }, [])
  else if (0x51 ≤ b ∧ b ≤ 0x57) ∨ (0x59 ≤ b ∧ b ≤ 0x5A) ∨ b = 0x5C ∨
      (0x60 ≤ b ∧ b ≤ 0x7E) then
    ({ p with state := .ground }, [.escDispatch p.intermediates p.ignoring b])
  else (p, [])

/-- `advanceEscapeIntermediate`. -/
def advanceEscapeIntermediate (p : Parser) (b : Nat) : Parser × List PEvent :=
  if b < 0x20 then (p, [.execute b])
  else if 0x20 ≤ b ∧ b ≤ 0x2F then (p.collectIntermediate b, [])
  else if 0x30 ≤ b ∧ b ≤ 0x7E then
    ({ p with state := .ground }, [.escDispatch p.intermediates p.ignoring b])
  else (p, [])

/-- `advanceCSIEntry`. -/
def advanceCSIEntry (p : Parser) (b : Nat) : Parser × List PEvent :=
  if b < 0x20 then (p, [.execute b])
  else if 0x20 ≤ b ∧ b ≤ 0x2F then
    ({ p.collectIntermediate b with state := .csiIntermediate }, [])
  else if 0x30 ≤ b ∧ b ≤ 0x39 then
    ({ p.paramDigit b with state := .csiParam }, [])
  else if b = 0x3A then ({ p.paramSubparam with state := .csiParam }, [])
  else if b = 0x3B then ({ p.paramSeparator with state := .csiParam }, [])
  else if 0x3C ≤ b ∧ b ≤ 0x3F then
    ({ p.collectIntermediate b with state := .csiParam }, [])
  else if 0x40 ≤ b ∧ b ≤ 0x7E then
    let r := p.csiDispatch b
    ({ r.1 with state := .ground }, r.2)
  else (p, [])

/-- `advanceCSIParam`. -/
def advanceCSIParam (p : Parser) (b : Nat) : Parser × List PEvent :=
  if b < 0x20 then (p, [.execute b])
  else if 0x20 ≤ b ∧ b ≤ 0x2F then
    ({ p.collectIntermediate b with state := .csiIntermediate }, [])
  else if 0x30 ≤ b ∧ b ≤ 0x39 then (p.paramDigit b, [])
  else if b = 0x3A then (p.paramSubparam, [])
  else if b = 0x3B then (p.paramSeparator, [])
  else if 0x3C ≤ b ∧ b ≤ 0x3F then ({ p with state := .csiIgnore }, [])
  else if 0x40 ≤ b ∧ b ≤ 0x7E then
    let r := p.csiDispatch b
    ({ r.1 with state := .ground }, r.2)
  else (p, [])

/-- `advanceCSIIntermediate`. -/
def advanceCSIIntermediate (p : Parser) (b : Nat) : Parser × List PEvent :=
  if b < 0x20 then (p, [.execute b])
  else if 0x20 ≤ b ∧ b ≤ 0x2F then (p.collectIntermediate b, [])
  else if 0x30 ≤ b ∧ b ≤ 0x3F then ({ p with state := .csiIgnore }, [])
  else if 0x40 ≤ b ∧ b ≤ 0x7E then
    let r := p.csiDispatch b
    ({ r.1 with state := .ground }, r.2)
  else (p, [])

/-- `advanceCSIIgnore`. -/
def advanceCSIIgnore (p : Parser) (b : Nat) : Parser × List PEvent :=
  if b < 0x20 then (p, [.execute b])
  else if 0x20 ≤ b ∧ b ≤ 0x3F then (p, [])
  else if 0x40 ≤ b ∧ b ≤ 0x7E then ({ p with state := .ground }, [])
  else (p, [])

/-- `advanceOSCString`. -/
def advanceOSCString (p : Parser) (b : Nat) : Parser × List PEvent :=
  if b = 0x07 then
    let r := p.oscDispatch true
    ({ r.1 with state := .ground }, r.2)
  else if b = 0x1B then (p.oscPut b, [])
  else if b = 0x5C ∧ p.oscRaw.length > 0 ∧ p.oscRaw.getLast? = some 0x1B then
    let r := { p with oscRaw := p.oscRaw.dropLast }.oscDispatch false
    ({ r.1 with state := .ground }, r.2)
  else if 0x20 ≤ b ∧ b < 0x7F then (p.oscPut b, [])
  else if b < 0x20 ∨ 0x80 ≤ b then (p.oscPut b, [])
  else (p, [])

/-- `advanceDCSEntry`. -/
def advanceDCSEntry (p : Parser) (b : Nat) : Parser × List PEvent :=
  if b < 0x20 then (p, [])
  else if 0x20 ≤ b ∧ b ≤ 0x2F then
    ({ p.collectIntermediate b with state := .dcsIntermediate }, [])
  else if 0x30 ≤ b ∧ b ≤ 0x39 then
    ({ p.paramDigit b with state := .dcsParam }, [])
  else if b = 0x3A then ({ p.paramSubparam with state := .dcsParam }, [])
  else if b = 0x3B then ({ p.paramSeparator with state := .dcsParam }, [])
  else if 0x3C ≤ b ∧ b ≤ 0x3F then
    ({ p.collectIntermediate b with state := .dcsParam }, [])
  else if 0x40 ≤ b ∧ b ≤ 0x7E then
    let p := p.finalizeDCSParam
    ({ p with state := .dcsPassthrough },
     [.hook p.params.Iter p.intermediates p.ignoring b])
  else (p, [])

/-- `advanceDCSParam`. -/
def advanceDCSParam (p : Parser) (b : Nat) : Parser × List PEvent :=
  if b < 0x20 then (p, [])
  else if 0x20 ≤ b ∧ b ≤ 0x2F then
    ({ p.collectIntermediate b with state := .dcsIntermediate }, [])
  else if 0x30 ≤ b ∧ b ≤ 0x39 then (p.paramDigit b, [])
  else if b = 0x3A then (p.paramSubparam, [])
  else if b = 0x3B then (p.paramSeparator, [])
  else if 0x3C ≤ b ∧ b ≤ 0x3F then ({ p with state := .dcsIgnore }, [])
  else if 0x40 ≤ b ∧ b ≤ 0x7E then
    let p := p.finalizeDCSParam
    ({ p with state := .dcsPassthrough },
     [.hook p.params.Iter p.intermediates p.ignoring b])
  else (p, [])

/-- `advanceDCSIntermediate`. -/
def advanceDCSIntermediate (p : Parser) (b : Nat) : Parser × List PEvent :=
  if b < 0x20 then (p, [])
  else if 0x20 ≤ b ∧ b ≤ 0x2F then (p.collectIntermediate b, [])
  else if 0x30 ≤ b ∧ b ≤ 0x3F then ({ p with state := .dcsIgnore }, [])
  else if 0x40 ≤ b ∧ b ≤ 0x7E then
    let p := p.finalizeDCSParam
    ({ p with state := .dcsPassthrough },
     [.hook p.params.Iter p.intermediates p.ignoring b])
  else (p, [])

/-- `advanceDCSPassthrough`. -/
def advanceDCSPassthrough (p : Parser) (b : Nat) : Parser × List PEvent :=
  if b = 0x1B then ({ p with pendingESC := true }, [])
  else if b = 0x5C ∧ p.pendingESC then
    ({ p with pendingESC := false, state := .ground }, [.unhook])
  else if b = 0x07 then ({ p with state := .ground }, [.unhook])
  else if b ≤ 0x06 ∨ (0x08 ≤ b ∧ b ≤ 0x17) ∨ b = 0x19 ∨ (0x1C ≤ b ∧ b ≤ 0x7E) then
    if p.pendingESC then ({ p with pendingESC := false }, [.put 0x1B, .put b])
    else (p, [.put b])
  else if b = 0x18 ∨ b = 0x1A then
    ({ p with state := .ground }, [.unhook, .execute b])
  else
    -- b = 0x7F and the default arm behave identically
    if p.pendingESC then ({ p with pendingESC := false }, [.put 0x1B, .put b])
    else (p, [.put b])

/-- `advanceDCSIgnore`. -/
def advanceDCSIgnore (p : Parser) (b : Nat) : Parser × List PEvent :=
  if b = 0x1B then (p, [])
  else if b = 0x18 ∨ b = 0x1A then ({ p with state := .ground }, [])
  else (p, [])

/-- `advanceSOSPMApcString`. -/
def advanceSOSPMApcString (p : Parser) (b : Nat) : Parser × List PEvent :=
  if b = 0x1B then (p, [])
  else if b = 0x5C then ({ p with state := .ground }, [])
  else (p, [])

/-- One byte of the non-ground main-loop dispatch of `Advance`. -/
def step (p : Parser) (b : Nat) : Parser × List PEvent :=
  match p.state with
  | .ground => (p, [])  -- unreachable: the ground state is handled by advanceGround
  | .escape => p.advanceEscape b
  | .escapeIntermediate => p.advanceEscapeIntermediate b
  | .csiEntry => p.advanceCSIEntry b
  | .csiParam => p.advanceCSIParam b
  | .csiIntermediate => p.advanceCSIIntermediate b
  | .csiIgnore => p.advanceCSIIgnore b
  | .oscString => p.advanceOSCString b
  | .dcsEntry => p.advanceDCSEntry b
  | .dcsParam => p.advanceDCSParam b
  | .dcsIntermediate => p.advanceDCSIntermediate b
  | .dcsPassthrough => p.advanceDCSPassthrough b
  | .dcsIgnore => p.advanceDCSIgnore b
  | .sosPmApcString => p.advanceSOSPMApcString b

/-- The `for i < len(bytes)` main loop of `Advance`, made structurally
recursive with explicit fuel.  Each Go loop iteration advances `i` by
at least one (every arm consumes one byte, and `advanceGround` consumes
at least one byte of a non-empty slice, see `advanceGround_consumed_pos`),
so `bytes.length` fuel is exact (`runFuel_congr`). -/
def runFuel : Nat → Parser → List Nat → Parser × List PEvent
  | 0, p, _ => (p, [])
  | _ + 1, p, [] => (p, [])
  | fuel + 1, p, b :: rest =>
    match p.state with
    | .ground =>
      let r := advanceGround p (b :: rest)
      let q := runFuel fuel r.1 (rest.drop (r.2.2 - 1))
      (q.1, r.2.1 ++ q.2)
    | _ =>
      let r := step p b
      let q := runFuel fuel r.1 rest
      (q.1, r.2 ++ q.2)

/-- The main loop of `Advance`. -/
def run (p : Parser) (bytes : List Nat) : Parser × List PEvent :=
  runFuel bytes.length p bytes

/-- `Advance`: handle a pending partial UTF-8 code point, then run the
main loop on the remaining bytes. -/
def Advance (p : Parser) (bytes : List Nat) : Parser × List PEvent :=
  if p.partialUTF8.length > 0 then
    let r := p.advancePartialUTF8 bytes
    let q := run r.1 (bytes.drop r.2.2)
    (q.1, r.2.1 ++ q.2)
  else
    run p bytes


end Parser

/-! ## Semantic data model (colors, attributes, modes) -/

/-- `type Rgb struct` (uint8 channels; call sites keep values ≤ 255). -/
structure Rgb where
  R : Nat
  G : Nat
  B : Nat
deriving DecidableEq, Repr

/-- `type Color struct` with its `ColorType` tag: 0 = named,
1 = indexed, 2 = rgb.  The Go zero value is `⟨0, 0, 0, ⟨0,0,0⟩⟩`. -/
structure Color where
  type : Nat
  named : Nat
  index : Nat
  rgb : Rgb
deriving DecidableEq, Repr

/-- `NewNamedColor`. -/
def NewNamedColor (c : Nat) : Color := ⟨0, c, 0, ⟨0, 0, 0⟩⟩

/-- `NewIndexedColor`. -/
def NewIndexedColor (index : Nat) : Color := ⟨1, 0, index, ⟨0, 0, 0⟩⟩

/-- `NewRgbColor`. -/
def NewRgbColor (r g b : Nat) : Color := ⟨2, 0, 0, ⟨r, g, b⟩⟩

/-- `NamedColor` constants used by the Processor. -/
def Foreground : Nat := 16

def Background : Nat := 17

/-- `Attr` bit constants. -/
def AttrBold : Nat := 1

def AttrDim : Nat := 2

def AttrItalic : Nat := 4

def AttrUnderline : Nat := 8

def AttrBlinking : Nat := 16

def AttrReverse : Nat := 32

def AttrHidden : Nat := 64

def AttrStrikethrough : Nat := 128

def AttrDoubleUnderline : Nat := 256

/-- `CharsetIndex` constants. -/
def G0 : Nat := 0

def G1 : Nat := 1

def G2 : Nat := 2

def G3 : Nat := 3

/-- `StandardCharset` constants. -/
def StandardCharsetASCII : Nat := 0

def StandardCharsetSpecialLineDrawing : Nat := 1

/-- `TabulationClearMode` constants. -/
def TabClearCurrent : Nat := 0

def TabClearAll : Nat := 1

/-- High-level Handler events (the `Handler` interface).  Modes, clear
modes and charset tags are carried as their numeric values. -/
inductive HEvent where
  | input (c : Nat)
  | bell
  | lineFeed
  | carriageReturn
  | backspace
  | tab
  | setTabStop
  | clearTabStop (mode : Nat)
  | tabForward (count : Nat)
  | tabBackward (count : Nat)
  | setTitle (title : List Nat)
  | goto (line col : Nat)
  | gotoLine (line : Nat)
  | gotoCol (col : Nat)
  | moveUp (n : Nat)
  | moveDown (n : Nat)
  | moveForward (n : Nat)
  | moveBackward (n : Nat)
  | moveDownAndCR (n : Nat)
  | moveUpAndCR (n : Nat)
  | saveCursorPosition
  | restoreCursorPosition
  | insertBlank (n : Nat)
  | deleteChars (n : Nat)
  | eraseChars (n : Nat)
  | insertLines (n : Nat)
  | deleteLines (n : Nat)
  | clearLine (mode : Nat)
  | clearScreen (mode : Nat)
  | scrollUp (n : Nat)
  | scrollDown (n : Nat)
  | setScrollingRegion (top bottom : Nat)
  | setAttribute (attr : Nat)
  | resetAttributes
  | setForeground (color : Color)
  | setBackground (color : Color)
  | resetColors
  | setMode (mode : Nat)
  | resetMode (mode : Nat)
  | deviceStatus (kind : Nat)
  | identifyTerminal
  | reset
  | hook (params : List (List Nat)) (intermediates : List Nat) (ignore : Bool) (action : Nat)
  | put (data : List Nat)
  | unhook
  | configureCharset (index charset : Nat)
  | setActiveCharset (index : Nat)
deriving DecidableEq, Repr

/-- `getParam`: fetch `groups[groupIdx][paramIdx]`, substituting the
default when the slot is missing or when the stored value is zero and
the default is non-zero. -/
def getParam (groups : List (List Nat)) (groupIdx paramIdx dflt : Nat) : Nat :=
  match groups.get? groupIdx with
  | none => dflt
  | some group =>
    match group.get? paramIdx with
    | none => dflt
    | some value => if value = 0 ∧ dflt ≠ 0 then dflt else value

/-- `minUint16`. -/
def minUint16 (a b : Nat) : Nat := if a < b then a else b

/-- `processorPerformer.processExtendedColor`: interpret one SGR group
that started with 38/48.  Returns the Handler event (the Go code always
calls Set{Fore,Back}ground once it is reached with `len(group) ≥ 2`,
passing the zero `Color` for degenerate forms). -/
def processExtendedColor (group : List Nat) (isForeground : Bool) : List HEvent :=
  if group.length < 2 then []
  else
    let color :=
      if group.getD 1 0 = 2 then
        if group.length ≥ 5 then
          NewRgbColor (minUint16 (group.getD 2 0) 255) (minUint16 (group.getD 3 0) 255)
            (minUint16 (group.getD 4 0) 255)
        else ⟨0, 0, 0, ⟨0, 0, 0⟩⟩
      else if group.getD 1 0 = 5 then
        if group.length ≥ 3 then NewIndexedColor (minUint16 (group.getD 2 0) 255)
        else ⟨0, 0, 0, ⟨0, 0, 0⟩⟩
      else ⟨0, 0, 0, ⟨0, 0, 0⟩⟩
    if isForeground then [.setForeground color] else [.setBackground color]

/-- One SGR group of `processorPerformer.processSGR`. -/
def processSGRGroup (group : List Nat) : List HEvent :=
  if group.length = 0 then []
  else
    let g0 := group.getD 0 0
    if g0 = 0 then [.resetAttributes, .resetColors]
    else if g0 = 1 then [.setAttribute AttrBold]
    else if g0 = 2 then [.setAttribute AttrDim]
    else if g0 = 3 then [.setAttribute AttrItalic]
    else if g0 = 4 then [.setAttribute AttrUnderline]
    else if g0 = 5 then [.setAttribute AttrBlinking]
    else if g0 = 7 then [.setAttribute AttrReverse]
    else if g0 = 8 then [.setAttribute AttrHidden]
    else if g0 = 9 then [.setAttribute AttrStrikethrough]
    else if g0 = 21 then [.setAttribute AttrDoubleUnderline]
    else if 30 ≤ g0 ∧ g0 ≤ 37 then [.setForeground (NewNamedColor (g0 - 30))]
    else if g0 = 38 then
      if group.length > 1 then processExtendedColor group true else []
    else if g0 = 39 then [.setForeground (NewNamedColor Foreground)]
    else if 40 ≤ g0 ∧ g0 ≤ 47 then [.setBackground (NewNamedColor (g0 - 40))]
    else if g0 = 48 then
      if group.length > 1 then processExtendedColor group false else []
    else if g0 = 49 then [.setBackground (NewNamedColor Background)]
    else if 90 ≤ g0 ∧ g0 ≤ 97 then [.setForeground (NewNamedColor (g0 - 90 + 8))]
    else if 100 ≤ g0 ∧ g0 ≤ 107 then [.setBackground (NewNamedColor (g0 - 100 + 8))]
    else []

/-- `processorPerformer.processSGR`. -/
def processSGR (groups : List (List Nat)) : List HEvent :=
  if groups.length = 0 then [.resetAttributes, .resetColors]
  else (groups.map processSGRGroup).flatten

/-- `processorPerformer.configureCharset`. -/
def configureCharset (intermediates : List Nat) (charset : Nat) : List HEvent :=
  if intermediates.length ≠ 1 then []
  else
    let b := intermediates.getD 0 0
    if b = 0x28 then [.configureCharset G0 charset]
    else if b = 0x29 then [.configureCharset G1 charset]
    else if b = 0x2A then [.configureCharset G2 charset]
    else if b = 0x2B then [.configureCharset G3 charset]
    else []

/-- `SetMode`/`ResetMode` loops of the `h`/`l` arms: one event per
non-empty group, built from the group's main parameter (plus `0x200`
for private modes). -/
def modeEvents (groups : List (List Nat)) (priv : Bool) (set : Bool) : List HEvent :=
  (groups.map fun group =>
    match group.head? with
    | none => []
    | some v =>
      let m := if priv then 0x200 + v else v
      if set then [HEvent.setMode m] else [HEvent.resetMode m]).flatten

/-- `processorPerformer.CsiDispatch`'s dispatch table. -/
def performCsi (groups : List (List Nat)) (intermediates : List Nat)
    (ignore : Bool) (action : Nat) : List HEvent :=
  if ignore then []
  else if action = 0x41 then [.moveUp (getParam groups 0 0 1)]
  else if action = 0x42 then [.moveDown (getParam groups 0 0 1)]
  else if action = 0x43 then [.moveForward (getParam groups 0 0 1)]
  else if action = 0x44 then [.moveBackward (getParam groups 0 0 1)]
  else if action = 0x45 then [.moveDownAndCR (getParam groups 0 0 1)]
  else if action = 0x46 then [.moveUpAndCR (getParam groups 0 0 1)]
  else if action = 0x47 then [.gotoCol (getParam groups 0 0 1)]
  else if action = 0x48 ∨ action = 0x66 then
    [.goto (getParam groups 0 0 1) (getParam groups 1 0 1)]
  else if action = 0x4A then [.clearScreen (getParam groups 0 0 0)]
  else if action = 0x4B then [.clearLine (getParam groups 0 0 0)]
  else if action = 0x4C then [.insertLines (getParam groups 0 0 1)]
  else if action = 0x4D then [.deleteLines (getParam groups 0 0 1)]
  else if action = 0x50 then [.deleteChars (getParam groups 0 0 1)]
  else if action = 0x53 then [.scrollUp (getParam groups 0 0 1)]
  else if action = 0x54 then [.scrollDown (getParam groups 0 0 1)]
  else if action = 0x58 then [.eraseChars (getParam groups 0 0 1)]
  else if action = 0x40 then [.insertBlank (getParam groups 0 0 1)]
  else if action = 0x64 then [.gotoLine (getParam groups 0 0 1)]
  else if action = 0x6D then processSGR groups
  else if action = 0x72 then
    let top := getParam groups 0 0 1
    let bottom := getParam groups 1 0 0
    [.setScrollingRegion top (if bottom = 0 then 24 else bottom)]
  else if action = 0x73 then [.saveCursorPosition]
  else if action = 0x75 then [.restoreCursorPosition]
  else if action = 0x68 then
    modeEvents groups (intermediates.head? = some 0x3F) true
  else if action = 0x6C then
    modeEvents groups (intermediates.head? = some 0x3F) false
  else if action = 0x6E then [.deviceStatus (getParam groups 0 0 0)]
  else if action = 0x63 then [.identifyTerminal]
  else if action = 0x67 then
    let mode := getParam groups 0 0 0
    if mode = 0 then [.clearTabStop TabClearCurrent]
    else if mode = 3 then [.clearTabStop TabClearAll]
    else []
  else if action = 0x49 then [.tabForward (getParam groups 0 0 1)]
  else if action = 0x5A then [.tabBackward (getParam groups 0 0 1)]
  else []

/-- `processorPerformer.EscDispatch`. -/
def performEsc (intermediates : List Nat) (ignore : Bool) (b : Nat) : List HEvent :=
  if ignore then []
  else if b = 0x37 then [.saveCursorPosition]
  else if b = 0x38 then [.restoreCursorPosition]
  else if b = 0x63 then [.reset]
  else if b = 0x44 then [.moveDown 1]
  else if b = 0x45 then [.moveDownAndCR 1]
  else if b = 0x4D then [.moveUp 1]
  else if b = 0x42 then configureCharset intermediates StandardCharsetASCII
  else if b = 0x30 then configureCharset intermediates StandardCharsetSpecialLineDrawing
  else if b = 0x48 then [.setTabStop]
  else []

/-- `processorPerformer.Execute` (C0 mapping). -/
def performExecute (b : Nat) : List HEvent :=
  if b = 0x07 then [.bell]
  else if b = 0x08 then [.backspace]
  else if b = 0x09 then [.tab]
  else if b = 0x0A ∨ b = 0x0B ∨ b = 0x0C then [.lineFeed]
  else if b = 0x0D then [.carriageReturn]
  else if b = 0x0E then [.setActiveCharset G1]
  else if b = 0x0F then [.setActiveCharset G0]
  else []

/-- `processorPerformer.OscDispatch`: the OSC number is accumulated
from the digit bytes of the first parameter (non-digits are skipped). -/
def performOsc (params : List (List Nat)) (_bellTerminated : Bool) : List HEvent :=
  match params with
  | [] => []
  | first :: rest =>
    let oscNum := first.foldl
      (fun n b => if 0x30 ≤ b ∧ b ≤ 0x39 then n * 10 + (b - 0x30) else n) 0
    if oscNum = 0 ∨ oscNum = 2 then
      match rest with
      | [] => []
      | second :: _ => [.setTitle second]
    else []

/-- `type DCSState struct`. -/
structure DCSState where
  active : Bool
  buffer : List Nat
deriving DecidableEq, Repr

/-- `processorPerformer`: translate one Performer event into Handler
events, updating the DCS buffering state (`Hook`, `Put`, `Unhook`). -/
def performEvent (d : DCSState) : PEvent → DCSState × List HEvent
  | .print c => (d, [.input c])
  | .execute b => (d, performExecute b)
  | .hook params intermediates ignore action =>
    (⟨true, []⟩, [.hook params intermediates ignore action])
  | .put b => (if d.active then ⟨d.active, d.buffer ++ [b]⟩ else d, [])
  | .unhook =>
    if d.active then
      (⟨false, d.buffer⟩,
       (if d.buffer.length > 0 then [HEvent.put d.buffer] else []) ++ [.unhook])
    else (d, [])
  | .oscDispatch params bell => (d, performOsc params bell)
  | .csiDispatch params intermediates ignore action =>
    (d, performCsi params intermediates ignore action)
  | .escDispatch intermediates ignore b => (d, performEsc intermediates ignore b)

/-- Fold `performEvent` over a parser event list (the callbacks fire in
order during `parser.Advance`; the parser never reads the processor's
state, so the fold is equivalent to the interleaved Go execution). -/
def performEvents (d : DCSState) : List PEvent → DCSState × List HEvent
  | [] => (d, [])
  | e :: es =>
    let r := performEvent d e
    let q := performEvents r.1 es
    (q.1, r.2 ++ q.2)

/-- `type SyncState struct`.  `startTime`/`timeout` are modelled in
milliseconds as `Nat`; the current time is passed explicitly to the
operations that consult the clock. -/
structure SyncState where
  enabled : Bool
  buffer : List Nat
  startTime : Nat
  timeout : Nat
deriving DecidableEq, Repr

/-- `type Processor struct`.  The `output io.Writer` is modelled by a
presence flag plus explicit byte-list results for writes; the `modes`
map only backs the `SetMode`/`IsMode` accessors and is omitted. -/
structure Processor where
  parser : Parser
  syncState : SyncState
  dcsState : DCSState
  hasOutput : Bool
deriving DecidableEq, Repr

namespace Processor

/-- `NewProcessor` (default sync timeout 150 ms). -/
def new : Processor :=
  { parser := Parser.new
    syncState := ⟨false, [], 0, 150⟩
    dcsState := ⟨false, []⟩
    hasOutput := false }

/-- Feed bytes through the owned parser and the performer translation. -/
def runParser (proc : Processor) (bytes : List Nat) : Processor × List HEvent :=
  let r := proc.parser.Advance bytes
  let q := performEvents proc.dcsState r.2
  ({ proc with parser := r.1, dcsState := q.1 }, q.2)

/-- `processSyncBuffer`. -/
def processSyncBuffer (proc : Processor) : Processor × List HEvent :=
  if proc.syncState.buffer.length = 0 then (proc, [])
  else
    let r := proc.runParser proc.syncState.buffer
    ({ r.1 with syncState := { r.1.syncState with buffer := [] } }, r.2)

/-- `Advance` — `now` models `time.Now()` at the call, so
`time.Since(startTime) > timeout` becomes
`now - startTime > timeout`. -/
def Advance (proc : Processor) (now : Nat) (bytes : List Nat) : Processor × List HEvent :=
  if proc.syncState.enabled then
    let proc := { proc with
      syncState := { proc.syncState with buffer := proc.syncState.buffer ++ bytes } }
    if now - proc.syncState.startTime > proc.syncState.timeout then
      let r := proc.processSyncBuffer
      ({ r.1 with syncState := { r.1.syncState with enabled := false } }, r.2)
    else (proc, [])
  else proc.runParser bytes

/-- `BeginSynchronizedUpdate` at time `now`. -/
def BeginSynchronizedUpdate (proc : Processor) (now : Nat) : Processor :=
  { proc with syncState :=
    { proc.syncState with enabled := true, startTime := now, buffer := [] } }

/-- `EndSynchronizedUpdate`: also returns the bytes written to the
output sink (empty when no output is attached).  The buffered bytes
are not parsed here. -/
def EndSynchronizedUpdate (proc : Processor) : Processor × List Nat :=
  if proc.syncState.enabled then
    let written :=
      if proc.hasOutput ∧ proc.syncState.buffer.length > 0 then proc.syncState.buffer
      else []
    ({ proc with syncState :=
       { proc.syncState with enabled := false, buffer := [] } }, written)
  else (proc, [])

end Processor

/-! ## Derived notions used to state the claims -/

/-- Decimal value accumulated from digit bytes onto `v` (the exact
mathematical value, without the `uint16` wrap or the 9999 cap of
`paramDigit`). -/
def foldDec (v : Nat) (ds : List Nat) : Nat :=
  ds.foldl (fun a d => a * 10 + (d - 0x30)) v

/-- Decimal value of a CSI parameter field (a list of digit bytes);
`0` for an empty field. -/
def fieldVal (f : List Nat) : Nat := foldDec 0 f

/-- The bytes of `p1 ; p2 ; … ; pk`. -/
def fieldsBytes : List (List Nat) → List Nat
  | [] => []
  | [f] => f
  | f :: fs => f ++ 0x3B :: fieldsBytes fs

/-- The parser mid-CSI after `ESC [` and zero or more complete
parameter fields: state `CSIParam`, `vs` completed main parameters
(each its own group), a current accumulator, and no intermediates. -/
def csiAcc (vs : List Nat) (cur : Nat) (hasCur : Bool) : Parser :=
  { state := .csiParam
    intermediates := []
    params := ⟨List.replicate vs.length 1, vs, 0⟩
    currentParam := cur
    hasCurrentParam := hasCur
    inSubparam := false
    oscRaw := []
    oscParams := []
    oscNumParams := 0
    ignoring := false
    pendingESC := false
    partialUTF8 := [] }

/-- Like `csiAcc` but with the overflow `ignoring` flag already set. -/
def csiAccIgn (vs : List Nat) (cur : Nat) (hasCur : Bool) : Parser :=
  { csiAcc vs cur hasCur with ignoring := true }

/-- The bytes of `p1 ; p2 ; … ; pk ;` (every field followed by its
separator). -/
def fieldsBytesSep : List (List Nat) → List Nat
  | [] => []
  | f :: fs => f ++ 0x3B :: fieldsBytesSep fs

/-- The parser inside a DCS passthrough entered by `ESC P q` (no
parameters, no intermediates). -/
def dcsPass (pend : Bool) : Parser :=
  { Parser.new with state := .dcsPassthrough, pendingESC := pend }

/-- The parser mid-CSI inside a sub-parameter group: the store holds
one group with the main parameter and its sub-parameters `qs`
(`subparams` = group count followed by zeros), `inSubparam` set. -/
def csiSub (qs : List Nat) (cur : Nat) (hasCur : Bool) : Parser :=
  { state := .csiParam
    intermediates := []
    params := ⟨qs.length :: List.replicate (qs.length - 1) 0, qs, qs.length - 1⟩
    currentParam := cur
    hasCurrentParam := hasCur
    inSubparam := true
    oscRaw := []
    oscParams := []
    oscNumParams := 0
    ignoring := false
    pendingESC := false
    partialUTF8 := [] }

/-- The parser inside an OSC string with raw buffer `raw` and no
parameter boundaries recorded. -/
def oscAcc (raw : List Nat) : Parser :=
  { Parser.new with state := .oscString, oscRaw := raw }

/-- A fresh parser holding an incomplete UTF-8 prefix saved across
`Advance` calls. -/
def newPartial (l : List Nat) : Parser :=
  { Parser.new with partialUTF8 := l }

/-- The parser mid-CSI while collecting intermediates: state
`CSIIntermediate` with collected intermediates `is` and an empty
parameter store. -/
def csiInterAcc (is : List Nat) (ign : Bool) : Parser :=
  { state := .csiIntermediate
    intermediates := is
    params := ⟨[], [], 0⟩
    currentParam := 0
    hasCurrentParam := false
    inSubparam := false
    oscRaw := []
    oscParams := []
    oscNumParams := 0
    ignoring := ign
    pendingESC := false
    partialUTF8 := [] }

end GoVTE

namespace GoVTE

/-! ## Helper lemmas: fuel congruence and loop unfolding -/

namespace Params

/-- Any fuel of at least `sp.length` computes the same `iterGo`
result. -/
theorem iterGo_congr (f g : Nat) (sp vs : List Nat)
    (hf : sp.length ≤ f) (hg : sp.length ≤ g) :
    iterGo f sp vs = iterGo g sp vs := by
  induction f generalizing g sp vs with
  | zero =>
    have hb : sp = [] := List.eq_nil_of_length_eq_zero (Nat.le_zero.1 hf)
    subst hb
    cases g <;> rfl
  | succ f ih =>
    cases sp with
    | nil => cases g <;> rfl
    | cons c cs =>
      cases g with
      | zero => simp at hg
      | succ g =>
        simp only [List.length_cons, Nat.succ_le_succ_iff] at hf hg
        simp only [iterGo]
        have hlen : (cs.drop (c - 1)).length ≤ cs.length := by
          simp [List.length_drop]
        split_ifs
        · rw [ih g cs _ hf hg]
        · rw [ih g _ _ (le_trans hlen hf) (le_trans hlen hg)]

end Params

namespace Parser

/-- `decodeRune` consumes at least one byte of a non-empty input. -/
theorem decodeRune_pos (b : Nat) (rest : List Nat) :
    1 ≤ (decodeRune (b :: rest)).2 := by
  rcases rest with _ | ⟨b1, _ | ⟨b2, _ | ⟨b3, rest4⟩⟩⟩ <;>
    · simp only [decodeRune]
      split_ifs <;> simp

/-- `handleUTF8` consumes at least one byte of a non-empty input. -/
theorem handleUTF8_consumed_pos (p : Parser) (b : Nat) (rest : List Nat) :
    1 ≤ (p.handleUTF8 (b :: rest)).2.2 := by
  have := decodeRune_pos b rest
  simp only [handleUTF8]
  split_ifs <;> simp
  all_goals omega

/-- `advanceGround` consumes at least one byte of a non-empty input:
the Go `for` loop over a non-empty slice always advances. -/
theorem advanceGround_consumed_pos (p : Parser) (b : Nat) (rest : List Nat) :
    1 ≤ (advanceGround p (b :: rest)).2.2 := by
  have := handleUTF8_consumed_pos p b rest
  simp only [advanceGround]
  split_ifs <;> simp
  all_goals omega

/-- Any fuel of at least `bytes.length` computes the same result: the
fuel in `runFuel` is an artifact of structural recursion only. -/
theorem runFuel_congr (f g : Nat) (p : Parser) (bytes : List Nat)
    (hf : bytes.length ≤ f) (hg : bytes.length ≤ g) :
    runFuel f p bytes = runFuel g p bytes := by
  induction f generalizing g p bytes with
  | zero =>
    have hb : bytes = [] := List.eq_nil_of_length_eq_zero (Nat.le_zero.1 hf)
    subst hb
    cases g <;> rfl
  | succ f ih =>
    cases bytes with
    | nil => cases g <;> rfl
    | cons b rest =>
      cases g with
      | zero => simp at hg
      | succ g =>
        simp only [List.length_cons, Nat.succ_le_succ_iff] at hf hg
        simp only [runFuel]
        cases hps : p.state
        case ground =>
          simp only []
          have hlen : (rest.drop ((advanceGround p (b :: rest)).2.2 - 1)).length ≤ rest.length := by
            simp [List.length_drop]
          rw [ih g _ _ (le_trans hlen hf) (le_trans hlen hg)]
        all_goals
          simp only []
          rw [ih g _ _ hf hg]

/-- Unfold `run` on an empty input. -/
theorem run_nil (p : Parser) : run p [] = (p, []) := rfl

/-- Unfold `run` one ground-state iteration. -/
theorem run_cons_ground (p : Parser) (b : Nat) (rest : List Nat)
    (h : p.state = .ground) :
    run p (b :: rest) =
      (let r := advanceGround p (b :: rest)
       let q := run r.1 (rest.drop (r.2.2 - 1))
       (q.1, r.2.1 ++ q.2)) := by
  show runFuel (b :: rest).length p (b :: rest) = _
  simp only [List.length_cons, runFuel, h]
  have hlen : (rest.drop ((advanceGround p (b :: rest)).2.2 - 1)).length ≤ rest.length := by
    simp [List.length_drop]
  rw [runFuel_congr rest.length _ _ _ hlen le_rfl]
  rfl

/-- Unfold `run` one non-ground iteration. -/
theorem run_cons_step (p : Parser) (b : Nat) (rest : List Nat)
    (h : p.state ≠ .ground) :
    run p (b :: rest) =
      (let r := step p b
       let q := run r.1 rest
       (q.1, r.2 ++ q.2)) := by
  show runFuel (b :: rest).length p (b :: rest) = _
  rcases hps : p.state
  case ground => exact absurd hps h
  all_goals simp only [List.length_cons, runFuel, hps, run]

/-! ### Arithmetic facts about digit accumulation -/

theorem foldDec_cons (v d : Nat) (ds : List Nat) :
    foldDec v (d :: ds) = foldDec (v * 10 + (d - 0x30)) ds := rfl

theorem foldDec_le (ds : List Nat) : ∀ v : Nat, v ≤ foldDec v ds := by
  induction ds with
  | nil => intro v; exact le_rfl
  | cons d ds ih =>
    intro v
    calc v ≤ v * 10 + (d - 0x30) := by omega
    _ ≤ foldDec (v * 10 + (d - 0x30)) ds := ih _

/-- `paramDigit` on a fresh accumulator stores the digit. -/
theorem paramDigit_fresh (p : Parser) (h : p.hasCurrentParam = false) (b : Nat) :
    p.paramDigit b = { p with currentParam := b - 0x30, hasCurrentParam := true } := by
  simp [paramDigit, h]

/-- `paramDigit` on an existing accumulator that stays within the cap
performs the exact decimal step (no wrap, no cap). -/
theorem paramDigit_acc (p : Parser) (h : p.hasCurrentParam = true) (b : Nat)
    (hb : p.currentParam * 10 + (b - 0x30) ≤ 9999) :
    p.paramDigit b = { p with currentParam := p.currentParam * 10 + (b - 0x30) } := by
  simp only [paramDigit, h, Bool.not_true, Bool.false_eq_true, if_false]
  rw [Nat.mod_eq_of_lt (by omega), if_neg (by omega)]

/-! ### Single-byte `run` lemmas in the CSI parameter state -/

theorem run_csiParam_digit (p : Parser) (hst : p.state = .csiParam) (b : Nat)
    (hb : 0x30 ≤ b ∧ b ≤ 0x39) (tail : List Nat) :
    run p (b :: tail) = run (p.paramDigit b) tail := by
  rw [run_cons_step p b tail (by rw [hst]; simp)]
  simp only [step, hst, advanceCSIParam]
  split_ifs
  all_goals first
    | (exfalso; omega)
    | simp

theorem run_csiParam_colon (p : Parser) (hst : p.state = .csiParam) (tail : List Nat) :
    run p (0x3A :: tail) = run p.paramSubparam tail := by
  rw [run_cons_step p 0x3A tail (by rw [hst]; simp)]
  simp only [step, hst, advanceCSIParam]
  split_ifs
  all_goals first
    | (exfalso; omega)
    | simp

theorem run_csiParam_semi (p : Parser) (hst : p.state = .csiParam) (tail : List Nat) :
    run p (0x3B :: tail) = run p.paramSeparator tail := by
  rw [run_cons_step p 0x3B tail (by rw [hst]; simp)]
  simp only [step, hst, advanceCSIParam]
  split_ifs
  all_goals first
    | (exfalso; omega)
    | simp

theorem run_csiParam_final (p : Parser) (hst : p.state = .csiParam) (X : Nat)
    (hX : 0x40 ≤ X ∧ X ≤ 0x7E) :
    run p [X] = ({ (p.csiDispatch X).1 with state := .ground }, (p.csiDispatch X).2) := by
  rw [run_cons_step p X [] (by rw [hst]; simp)]
  simp only [step, hst, advanceCSIParam]
  split_ifs
  all_goals first
    | (exfalso; omega)
    | simp [run, runFuel]

/-- A run of digit bytes in `CSIParam` with an active accumulator whose
final value stays within the cap accumulates the exact decimal value. -/
theorem run_csiParam_digits (ds : List Nat) :
    ∀ (p : Parser), (∀ d ∈ ds, 0x30 ≤ d ∧ d ≤ 0x39) → p.state = .csiParam →
    p.hasCurrentParam = true → foldDec p.currentParam ds ≤ 9999 →
    ∀ tail, run p (ds ++ tail) = run { p with currentParam := foldDec p.currentParam ds } tail := by
  induction ds with
  | nil =>
    intro p _ _ _ _ tail
    simp [foldDec]
  | cons d ds ih =>
    intro p hds hst hcur hbound tail
    have hd := hds d (by simp)
    have hstep : p.currentParam * 10 + (d - 0x30) ≤ 9999 := by
      have h1 := foldDec_le ds (p.currentParam * 10 + (d - 0x30))
      rw [foldDec_cons] at hbound
      omega
    rw [List.cons_append, run_csiParam_digit p hst d hd,
        paramDigit_acc p hcur d hstep]
    rw [ih _ (fun x hx => hds x (by simp [hx])) (by simp [hst]) (by simp [hcur])
        (by rw [foldDec_cons] at hbound; exact hbound)]
    rw [foldDec_cons]

/-- A complete non-empty digit field consumed from a fresh
accumulator. -/
theorem run_csiParam_field_ne (d : Nat) (ds : List Nat) (p : Parser)
    (hds : ∀ x ∈ d :: ds, 0x30 ≤ x ∧ x ≤ 0x39)
    (hval : fieldVal (d :: ds) ≤ 9999)
    (hst : p.state = .csiParam) (hfresh : p.hasCurrentParam = false)
    (tail : List Nat) :
    run p ((d :: ds) ++ tail) =
      run { p with currentParam := fieldVal (d :: ds), hasCurrentParam := true } tail := by
  have hd := hds d (by simp)
  rw [List.cons_append, run_csiParam_digit p hst d hd, paramDigit_fresh p hfresh d]
  have hfv : fieldVal (d :: ds) = foldDec (d - 0x30) ds := by
    simp [fieldVal, foldDec_cons, foldDec]
  rw [run_csiParam_digits ds _ (fun x hx => hds x (by simp [hx]))
      (by simpa using hst) (by simp) (by simp only []; rw [← hfv]; exact hval)]
  simp only []
  rw [hfv]

/-! ### Entering a CSI sequence -/

theorem run_ground_esc (p : Parser) (hst : p.state = .ground) (tail : List Nat) :
    run p (0x1B :: tail) = run ({ p with state := .escape }).resetParams tail := by
  rw [run_cons_ground p _ _ hst]
  simp [advanceGround]

theorem run_escape_lbracket (p : Parser) (hst : p.state = .escape) (tail : List Nat) :
    run p (0x5B :: tail) = run { p with state := .csiEntry } tail := by
  rw [run_cons_step p _ _ (by rw [hst]; simp)]
  simp only [step, hst, advanceEscape]
  split_ifs
  all_goals first
    | (exfalso; omega)
    | simp

theorem run_csiEntry_digit (p : Parser) (hst : p.state = .csiEntry) (b : Nat)
    (hb : 0x30 ≤ b ∧ b ≤ 0x39) (tail : List Nat) :
    run p (b :: tail) = run { p.paramDigit b with state := .csiParam } tail := by
  rw [run_cons_step p b tail (by rw [hst]; simp)]
  simp only [step, hst, advanceCSIEntry]
  split_ifs
  all_goals first
    | (exfalso; omega)
    | simp

theorem run_csiEntry_semi (p : Parser) (hst : p.state = .csiEntry) (tail : List Nat) :
    run p (0x3B :: tail) = run { p.paramSeparator with state := .csiParam } tail := by
  rw [run_cons_step p _ tail (by rw [hst]; simp)]
  simp only [step, hst, advanceCSIEntry]
  split_ifs
  all_goals first
    | (exfalso; omega)
    | simp

theorem run_csiEntry_colon (p : Parser) (hst : p.state = .csiEntry) (tail : List Nat) :
    run p (0x3A :: tail) = run { p.paramSubparam with state := .csiParam } tail := by
  rw [run_cons_step p _ tail (by rw [hst]; simp)]
  simp only [step, hst, advanceCSIEntry]
  split_ifs
  all_goals first
    | (exfalso; omega)
    | simp

theorem paramDigit_setState (p : Parser) (s : State) (b : Nat) :
    ({ p with state := s }).paramDigit b = { p.paramDigit b with state := s } := by
  simp only [paramDigit]
  split_ifs <;> rfl

theorem paramSeparator_setState (p : Parser) (s : State) :
    ({ p with state := s }).paramSeparator = { p.paramSeparator with state := s } := by
  simp only [paramSeparator]
  split_ifs <;> rfl

theorem paramSubparam_setState (p : Parser) (s : State) :
    ({ p with state := s }).paramSubparam = { p.paramSubparam with state := s } := by
  simp only [paramSubparam]
  split_ifs <;> rfl

/-- For a digit, `:`, or `;` first byte, the `CSIEntry` state behaves
exactly like `CSIParam` (both collect and move to `CSIParam`). -/
theorem run_csiEntry_as_param (p : Parser) (hst : p.state = .csiEntry) (b : Nat)
    (hb : (0x30 ≤ b ∧ b ≤ 0x39) ∨ b = 0x3A ∨ b = 0x3B) (tail : List Nat) :
    run p (b :: tail) = run { p with state := .csiParam } (b :: tail) := by
  rcases hb with hb | hb | hb
  · rw [run_csiEntry_digit p hst b hb tail,
      run_csiParam_digit { p with state := .csiParam } rfl b hb tail,
      paramDigit_setState]
    congr 1
    simp only [paramDigit]
    split_ifs <;> rfl
  · subst hb
    rw [run_csiEntry_colon p hst tail,
      run_csiParam_colon { p with state := .csiParam } rfl tail,
      paramSubparam_setState]
    congr 1
    simp only [paramSubparam]
    split_ifs <;> rfl
  · subst hb
    rw [run_csiEntry_semi p hst tail,
      run_csiParam_semi { p with state := .csiParam } rfl tail,
      paramSeparator_setState]
    congr 1
    simp only [paramSeparator]
    split_ifs <;> rfl

/-! ### The parameter store under singleton groups -/

theorem iterGo_singletons :
    ∀ (vs : List Nat) (f : Nat), vs.length ≤ f →
      Params.iterGo f (List.replicate vs.length 1) vs = vs.map (fun v => [v]) := by
  intro vs
  induction vs with
  | nil => intro f _; cases f <;> rfl
  | cons v vs ih =>
    intro f hf
    cases f with
    | zero => simp at hf
    | succ f =>
      simp only [List.length_cons, List.replicate_succ, Params.iterGo]
      rw [if_neg (by omega)]
      simp only [List.take_cons, List.drop_succ_cons, List.take_zero, List.drop_zero,
        Nat.sub_self, List.drop_nil, List.take, List.drop]
      rw [ih f (by simpa using hf)]
      rfl

theorem Iter_singletons (vs : List Nat) (c : Nat) :
    Params.Iter ⟨List.replicate vs.length 1, vs, c⟩ = vs.map (fun v => [v]) := by
  unfold Params.Iter
  simp only [List.length_replicate]
  exact iterGo_singletons vs vs.length le_rfl

/-! ### `csiAcc` transitions -/

theorem csiAcc_not_full (vs : List Nat) (h : vs.length < 32) :
    (⟨List.replicate vs.length 1, vs, 0⟩ : Params).IsFull = false := by
  simp only [Params.IsFull, Params.Len, MaxParams, decide_eq_false_iff_not]
  omega

theorem csiAcc_sep_val (vs : List Nat) (v : Nat) (h : vs.length < 32) :
    (csiAcc vs v true).paramSeparator = csiAcc (vs ++ [v]) 0 false := by
  simp only [csiAcc, paramSeparator, csiAcc_not_full vs h, Params.Push,
    Bool.false_eq_true, if_false, if_true, List.length_append, List.length_cons,
    List.length_nil]
  simp [List.replicate_succ']

theorem csiAcc_sep_empty (vs : List Nat) (h : vs.length < 32) :
    (csiAcc vs 0 false).paramSeparator = csiAcc (vs ++ [0]) 0 false := by
  simp only [csiAcc, paramSeparator, csiAcc_not_full vs h, Params.Push,
    Bool.false_eq_true, if_false, if_true, List.length_append, List.length_cons,
    List.length_nil]
  simp [List.replicate_succ']

theorem run_csiAcc_final (vs : List Nat) (v X : Nat) (h : vs.length < 32)
    (hX : 0x40 ≤ X ∧ X ≤ 0x7E) :
    run (csiAcc vs v true) [X] =
      (Parser.new, [.csiDispatch ((vs ++ [v]).map (fun w => [w])) [] false X]) := by
  rw [run_csiParam_final _ rfl X hX]
  simp only [csiDispatch, csiAcc, csiAcc_not_full vs h, Params.Push,
    Bool.false_eq_true, if_false, if_true, Prod.mk.injEq]
  constructor
  · simp [resetParams, Parser.new, Params.Clear, Params.new]
  · rw [show (List.replicate vs.length 1 ++ [1]) = List.replicate (vs ++ [v]).length 1 by
      simp [List.replicate_succ']]
    rw [Iter_singletons]

/-- The CSI parameter-field loop: from a fresh accumulator with `vs`
groups already stored, consuming `p1;…;pk` then a final byte yields a
single dispatch whose groups are `vs` extended by the field values —
provided everything fits: at most 32 groups in total, each value at
most 9999, and a non-empty last field. -/
theorem run_csiAcc_fields :
    ∀ (fields : List (List Nat)) (vs : List Nat) (X : Nat),
    (∀ f ∈ fields, (∀ d ∈ f, 0x30 ≤ d ∧ d ≤ 0x39) ∧ fieldVal f ≤ 9999) →
    fields.getLast? ≠ some [] →
    vs.length + fields.length ≤ 32 →
    fields ≠ [] →
    0x40 ≤ X → X ≤ 0x7E →
    run (csiAcc vs 0 false) (fieldsBytes fields ++ [X]) =
      (Parser.new,
       [.csiDispatch ((vs ++ fields.map fieldVal).map (fun w => [w])) [] false X]) := by
  intro fields
  induction fields with
  | nil => intro vs X _ _ _ hne; exact absurd rfl hne
  | cons f fs ih =>
    intro vs X hall hlast hlen _ hX1 hX2
    cases fs with
    | nil =>
      have hfne : f ≠ [] := by
        simp only [List.getLast?_singleton] at hlast
        intro hc; exact hlast (by rw [hc])
      rcases f with _ | ⟨d, ds⟩
      · exact absurd rfl hfne
      · have hfd := hall (d :: ds) (by simp)
        simp only [fieldsBytes]
        rw [run_csiParam_field_ne d ds _ hfd.1 hfd.2 rfl rfl [X]]
        have hacc : ({ csiAcc vs 0 false with
            currentParam := fieldVal (d :: ds), hasCurrentParam := true }) =
            csiAcc vs (fieldVal (d :: ds)) true := rfl
        rw [hacc, run_csiAcc_final vs _ X (by simp at hlen; omega) ⟨hX1, hX2⟩]
        simp
    | cons f2 fs2 =>
      have hfb : fieldsBytes (f :: f2 :: fs2) ++ [X] =
          f ++ (0x3B :: (fieldsBytes (f2 :: fs2) ++ [X])) := by
        simp [fieldsBytes]
      rw [hfb]
      have hrest :
          run (csiAcc (vs ++ [fieldVal f]) 0 false) (fieldsBytes (f2 :: fs2) ++ [X]) =
          (Parser.new,
           [.csiDispatch (((vs ++ [fieldVal f]) ++ (f2 :: fs2).map fieldVal).map
              (fun w => [w])) [] false X]) := by
        apply ih
        · intro g hg; exact hall g (by simp [hg])
        · rw [List.getLast?_cons_cons] at hlast; exact hlast
        · simp at hlen ⊢; omega
        · simp
        · exact hX1
        · exact hX2
      have hvs : vs.length < 32 := by simp at hlen; omega
      rcases f with _ | ⟨d, ds⟩
      · simp only [List.nil_append]
        rw [run_csiParam_semi _ rfl, csiAcc_sep_empty vs hvs]
        rw [show fieldVal ([] : List Nat) = 0 from rfl] at hrest
        rw [hrest]
        simp [fieldVal, foldDec]
      · have hfd := hall (d :: ds) (by simp)
        rw [run_csiParam_field_ne d ds _ hfd.1 hfd.2 rfl rfl]
        have hacc : ({ csiAcc vs 0 false with
            currentParam := fieldVal (d :: ds), hasCurrentParam := true }) =
            csiAcc vs (fieldVal (d :: ds)) true := rfl
        rw [hacc, run_csiParam_semi _ rfl, csiAcc_sep_val vs _ hvs, hrest]
        simp

/-- Common prelude: `ESC [` from the ground state, then a digit, `:`
or `;` first body byte lands in the canonical `CSIParam`
accumulator. -/
theorem Advance_csi_lead (body : List Nat) (b : Nat) (rest : List Nat)
    (hbody : body = b :: rest)
    (hb : (0x30 ≤ b ∧ b ≤ 0x39) ∨ b = 0x3A ∨ b = 0x3B) :
    Parser.Advance Parser.new (0x1B :: 0x5B :: body) =
      Parser.run (csiAcc [] 0 false) body := by
  have hadv : Parser.Advance Parser.new (0x1B :: 0x5B :: body) =
      run Parser.new (0x1B :: 0x5B :: body) := rfl
  rw [hadv, run_ground_esc _ rfl, run_escape_lbracket _ rfl, hbody,
    run_csiEntry_as_param _ rfl b hb]
  rfl

/-! ### CSI intermediates -/

theorem run_csiEntry_inter (p : Parser) (hst : p.state = .csiEntry) (b : Nat)
    (hb : 0x20 ≤ b ∧ b ≤ 0x2F) (tail : List Nat) :
    run p (b :: tail) = run { p.collectIntermediate b with state := .csiIntermediate } tail := by
  rw [run_cons_step p b tail (by rw [hst]; simp)]
  simp only [step, hst, advanceCSIEntry]
  split_ifs
  all_goals first
    | (exfalso; omega)
    | simp

theorem run_csiInter_collect (p : Parser) (hst : p.state = .csiIntermediate) (b : Nat)
    (hb : 0x20 ≤ b ∧ b ≤ 0x2F) (tail : List Nat) :
    run p (b :: tail) = run (p.collectIntermediate b) tail := by
  rw [run_cons_step p b tail (by rw [hst]; simp)]
  simp only [step, hst, advanceCSIIntermediate]
  split_ifs
  all_goals first
    | (exfalso; omega)
    | simp

theorem run_csiInter_final (p : Parser) (hst : p.state = .csiIntermediate) (X : Nat)
    (hX : 0x40 ≤ X ∧ X ≤ 0x7E) :
    run p [X] = ({ (p.csiDispatch X).1 with state := .ground }, (p.csiDispatch X).2) := by
  rw [run_cons_step p X [] (by rw [hst]; simp)]
  simp only [step, hst, advanceCSIIntermediate]
  split_ifs
  all_goals first
    | (exfalso; omega)
    | simp [run, runFuel]

theorem csiInterAcc_collect_lt (is : List Nat) (b : Nat) (ign : Bool)
    (h : is.length < 2) :
    (csiInterAcc is ign).collectIntermediate b = csiInterAcc (is ++ [b]) ign := by
  simp [csiInterAcc, collectIntermediate, MaxIntermediates, h]

theorem csiInterAcc_collect_full (is : List Nat) (b : Nat) (ign : Bool)
    (h : ¬ is.length < 2) :
    (csiInterAcc is ign).collectIntermediate b = csiInterAcc is true := by
  simp [csiInterAcc, collectIntermediate, MaxIntermediates, h]

/-- Once two intermediates are stored and the overflow flag set, more
intermediates change nothing and the final byte dispatches with
`ignore = true`. -/
theorem run_csiInterAcc_loop (is2 : List Nat) :
    ∀ (i1 i2 X : Nat), (∀ b ∈ is2, 0x20 ≤ b ∧ b ≤ 0x2F) →
    0x40 ≤ X → X ≤ 0x7E →
    run (csiInterAcc [i1, i2] true) (is2 ++ [X]) =
      (Parser.new, [.csiDispatch [] [i1, i2] true X]) := by
  induction is2 with
  | nil =>
    intro i1 i2 X _ hX1 hX2
    rw [List.nil_append, run_csiInter_final _ rfl X ⟨hX1, hX2⟩]
    simp [Parser.csiDispatch, csiInterAcc, resetParams, Parser.new,
      Params.Iter, Params.iterGo, Params.Clear, Params.new, Prod.mk.injEq]
  | cons b is2 ih =>
    intro i1 i2 X hall hX1 hX2
    rw [List.cons_append, run_csiInter_collect _ rfl b (hall b (by simp)),
      csiInterAcc_collect_full _ b _ (by simp)]
    exact ih i1 i2 X (fun x hx => hall x (by simp [hx])) hX1 hX2

/-! ### Parameter overflow -/

theorem fieldsBytes_cons_ne (f : List Nat) (fs : List (List Nat)) (h : fs ≠ []) :
    fieldsBytes (f :: fs) = f ++ 0x3B :: fieldsBytes fs := by
  cases fs with
  | nil => exact absurd rfl h
  | cons g gs => rfl

theorem fieldsBytes_append (a b : List (List Nat)) (hb : b ≠ []) :
    fieldsBytes (a ++ b) = fieldsBytesSep a ++ fieldsBytes b := by
  induction a with
  | nil => rfl
  | cons f a ih =>
    have hne : a ++ b ≠ [] := by
      cases b with
      | nil => exact absurd rfl hb
      | cons x xs => simp
    rw [List.cons_append, fieldsBytes_cons_ne f (a ++ b) hne, fieldsBytesSep,
      ih]
    simp

/-- Phase 1 of a long CSI: as long as the store has room, each
`field ;` pair pushes one singleton group. -/
theorem run_csiAcc_fieldsSep (fs : List (List Nat)) :
    ∀ (vs : List Nat) (tail : List Nat),
    (∀ f ∈ fs, (∀ d ∈ f, 0x30 ≤ d ∧ d ≤ 0x39) ∧ fieldVal f ≤ 9999) →
    vs.length + fs.length ≤ 32 →
    run (csiAcc vs 0 false) (fieldsBytesSep fs ++ tail) =
      run (csiAcc (vs ++ fs.map fieldVal) 0 false) tail := by
  induction fs with
  | nil => intro vs tail _ _; simp [fieldsBytesSep]
  | cons f fs ih =>
    intro vs tail hall hlen
    have hvs : vs.length < 32 := by simp at hlen; omega
    have hnext :
        run (csiAcc (vs ++ [fieldVal f]) 0 false) (fieldsBytesSep fs ++ tail) =
        run (csiAcc ((vs ++ [fieldVal f]) ++ fs.map fieldVal) 0 false) tail := by
      apply ih
      · intro g hg; exact hall g (by simp [hg])
      · simp at hlen ⊢; omega
    have hassoc : (vs ++ [fieldVal f]) ++ fs.map fieldVal =
        vs ++ (f :: fs).map fieldVal := by simp
    rcases f with _ | ⟨d, ds⟩
    · have hl : vs ++ [fieldVal ([] : List Nat)] ++ fs.map fieldVal =
          vs ++ (([] : List Nat) :: fs).map fieldVal := by simp
      simp only [fieldsBytesSep, List.nil_append, List.cons_append]
      rw [run_csiParam_semi _ rfl, csiAcc_sep_empty vs hvs,
        show fieldVal ([] : List Nat) = 0 from rfl] at *
      rw [hnext, ← hl]
    · have hfd := hall (d :: ds) (by simp)
      have hsh : ((d :: ds) ++ 0x3B :: fieldsBytesSep fs) ++ tail =
          (d :: ds) ++ (0x3B :: (fieldsBytesSep fs ++ tail)) := by simp
      rw [fieldsBytesSep, hsh, run_csiParam_field_ne d ds _ hfd.1 hfd.2 rfl rfl]
      have hacc : ({ csiAcc vs 0 false with
          currentParam := fieldVal (d :: ds), hasCurrentParam := true }) =
          csiAcc vs (fieldVal (d :: ds)) true := rfl
      rw [hacc, run_csiParam_semi _ rfl, csiAcc_sep_val vs _ hvs]
      rw [hnext, hassoc]

theorem csiAcc_full (vs : List Nat) (h : 32 ≤ vs.length) :
    (⟨List.replicate vs.length 1, vs, 0⟩ : Params).IsFull = true := by
  simp only [Params.IsFull, Params.Len, MaxParams, decide_eq_true_eq]
  omega

theorem csiAcc_sep_ofFull_val (vs : List Nat) (v : Nat) (h : 32 ≤ vs.length) :
    (csiAcc vs v true).paramSeparator = csiAccIgn vs 0 false := by
  simp [csiAcc, csiAccIgn, paramSeparator, csiAcc_full vs h]

theorem csiAcc_sep_ofFull_empty (vs : List Nat) (h : 32 ≤ vs.length) :
    (csiAcc vs 0 false).paramSeparator = csiAccIgn vs 0 false := by
  simp [csiAcc, csiAccIgn, paramSeparator, csiAcc_full vs h]

theorem csiAccIgn_sep (vs : List Nat) (v : Nat) (hc : Bool) (h : 32 ≤ vs.length) :
    (csiAccIgn vs v hc).paramSeparator = csiAccIgn vs 0 false := by
  cases hc <;> simp [csiAcc, csiAccIgn, paramSeparator, csiAcc_full vs h]

theorem run_csiAccIgn_final (vs : List Nat) (v : Nat) (hc : Bool) (X : Nat)
    (h : 32 ≤ vs.length) (hX : 0x40 ≤ X ∧ X ≤ 0x7E) :
    run (csiAccIgn vs v hc) [X] =
      (Parser.new, [.csiDispatch (vs.map (fun w => [w])) [] true X]) := by
  rw [run_csiParam_final _ rfl X hX]
  cases hc <;>
  · simp only [Parser.csiDispatch, csiAcc, csiAccIgn, csiAcc_full vs h,
      Params.Push, Params.Extend, if_true, Bool.false_eq_true, if_false,
      Prod.mk.injEq]
    constructor
    · simp [resetParams, Parser.new, Params.Clear, Params.new]
    · rw [Iter_singletons]

/-- Phase 2 of a long CSI: with the store full and the overflow flag
set, the remaining fields are discarded and the final dispatch carries
`ignore = true`. -/
theorem run_csiAccIgn_fields (fs : List (List Nat)) :
    ∀ (vs : List Nat) (X : Nat),
    (∀ f ∈ fs, (∀ d ∈ f, 0x30 ≤ d ∧ d ≤ 0x39) ∧ fieldVal f ≤ 9999) →
    32 ≤ vs.length → 0x40 ≤ X → X ≤ 0x7E →
    run (csiAccIgn vs 0 false) (fieldsBytes fs ++ [X]) =
      (Parser.new, [.csiDispatch (vs.map (fun w => [w])) [] true X]) := by
  induction fs with
  | nil =>
    intro vs X _ h hX1 hX2
    exact run_csiAccIgn_final vs 0 false X h ⟨hX1, hX2⟩
  | cons f fs ih =>
    intro vs X hall h hX1 hX2
    cases fs with
    | nil =>
      rcases f with _ | ⟨d, ds⟩
      · exact run_csiAccIgn_final vs 0 false X h ⟨hX1, hX2⟩
      · have hfd := hall (d :: ds) (by simp)
        simp only [fieldsBytes]
        rw [run_csiParam_field_ne d ds _ hfd.1 hfd.2 rfl rfl]
        exact run_csiAccIgn_final vs _ true X h ⟨hX1, hX2⟩
    | cons f2 fs2 =>
      have hrest := ih vs X (fun g hg => hall g (by simp [hg])) h hX1 hX2
      rw [fieldsBytes_cons_ne f (f2 :: fs2) (by simp)]
      rcases f with _ | ⟨d, ds⟩
      · simp only [List.nil_append, List.cons_append]
        rw [run_csiParam_semi _ rfl, csiAccIgn_sep vs 0 false h]
        exact hrest
      · have hfd := hall (d :: ds) (by simp)
        have hsh : ((d :: ds) ++ 0x3B :: fieldsBytes (f2 :: fs2)) ++ [X] =
            (d :: ds) ++ (0x3B :: (fieldsBytes (f2 :: fs2) ++ [X])) := by simp
        rw [hsh, run_csiParam_field_ne d ds _ hfd.1 hfd.2 rfl rfl]
        have hacc : ({ csiAccIgn vs 0 false with
            currentParam := fieldVal (d :: ds), hasCurrentParam := true }) =
            csiAccIgn vs (fieldVal (d :: ds)) true := rfl
        rw [hacc, run_csiParam_semi _ rfl, csiAccIgn_sep vs _ true h]
        exact hrest

/-! ### Sub-parameter groups (`:`-separated) -/

theorem iterGo_nil_sp (f : Nat) (vs : List Nat) : Params.iterGo f [] vs = [] := by
  cases f <;> rfl

theorem lastNonzeroIdx_replicate_zero (n : Nat) :
    Params.lastNonzeroIdx (List.replicate n 0) = none := by
  induction n with
  | zero => rfl
  | succ n ih => simp [List.replicate_succ, Params.lastNonzeroIdx, ih]

theorem lastNonzeroIdx_group (k n : Nat) (hk : k ≠ 0) :
    Params.lastNonzeroIdx (k :: List.replicate n 0) = some 0 := by
  simp [Params.lastNonzeroIdx, lastNonzeroIdx_replicate_zero, hk]

/-- `Extend` on a store holding one group of `qs` appends a
sub-parameter to that group. -/
theorem group_params_extend (qs : List Nat) (v : Nat) (hne : qs ≠ [])
    (hlen : qs.length < 32) :
    (⟨qs.length :: List.replicate (qs.length - 1) 0, qs, qs.length - 1⟩ : Params).Extend v =
      ⟨(qs ++ [v]).length :: List.replicate ((qs ++ [v]).length - 1) 0, qs ++ [v],
       (qs ++ [v]).length - 1⟩ := by
  have hk : qs.length ≠ 0 := fun h => hne (List.length_eq_zero.mp h)
  have hfull : (⟨qs.length :: List.replicate (qs.length - 1) 0, qs,
      qs.length - 1⟩ : Params).IsFull = false := by
    simp only [Params.IsFull, Params.Len, MaxParams, decide_eq_false_iff_not]
    omega
  unfold Params.Extend
  rw [hfull]
  simp only [Bool.false_eq_true, if_false]
  rw [if_neg (by simp [hk]), lastNonzeroIdx_group qs.length (qs.length - 1) hk]
  simp only [List.getD_cons_zero, List.set_cons_zero, List.cons_append,
    List.length_append, List.length_cons, List.length_nil, Params.mk.injEq]
  refine ⟨?_, trivial, by omega⟩
  rw [show qs.length + 1 - 1 = (qs.length - 1) + 1 by omega, List.replicate_succ']

theorem csiAcc_colon_first (v : Nat) :
    (csiAcc [] v true).paramSubparam = csiSub [v] 0 false := by
  simp [csiAcc, csiSub, Parser.paramSubparam, Params.Push, Params.IsFull,
    Params.Len, MaxParams]

theorem csiSub_colon (qs : List Nat) (v : Nat) (hne : qs ≠ [])
    (hlen : qs.length < 32) :
    (csiSub qs v true).paramSubparam = csiSub (qs ++ [v]) 0 false := by
  have hfull : (⟨qs.length :: List.replicate (qs.length - 1) 0, qs,
      qs.length - 1⟩ : Params).IsFull = false := by
    simp only [Params.IsFull, Params.Len, MaxParams, decide_eq_false_iff_not]
    omega
  have hext := group_params_extend qs v hne hlen
  simp [csiSub, Parser.paramSubparam, hfull, hext]

theorem Iter_single_group (qs : List Nat) (c : Nat) (hne : qs ≠ []) :
    Params.Iter ⟨qs.length :: List.replicate (qs.length - 1) 0, qs, c⟩ = [qs] := by
  obtain ⟨q, qs', hq⟩ : ∃ q qs', qs = q :: qs' := by
    cases qs with
    | nil => exact absurd rfl hne
    | cons a l => exact ⟨a, l, rfl⟩
  subst hq
  unfold Params.Iter
  simp only [List.length_cons, List.length_replicate, Nat.add_sub_cancel,
    Params.iterGo]
  rw [if_neg (by omega)]
  have htake : (q :: qs').take (qs'.length + 1) = q :: qs' := by
    apply List.take_of_length_le
    simp
  have hdropsp : (List.replicate qs'.length 0).drop qs'.length = [] := by
    apply List.drop_eq_nil_of_le
    simp
  rw [htake, hdropsp, iterGo_nil_sp]

theorem run_csiSub_final (qs : List Nat) (v X : Nat) (hne : qs ≠ [])
    (hlen : qs.length < 32) (hX : 0x40 ≤ X ∧ X ≤ 0x7E) :
    Parser.run (csiSub qs v true) [X] =
      (Parser.new, [.csiDispatch [qs ++ [v]] [] false X]) := by
  rw [Parser.run_csiParam_final _ rfl X hX]
  simp only [Parser.csiDispatch, csiSub, if_true]
  rw [show (⟨qs.length :: List.replicate (qs.length - 1) 0, qs, qs.length - 1⟩ : Params)
      = (csiSub qs v true).params from rfl]
  rw [show (csiSub qs v true).params.Extend v =
      ⟨(qs ++ [v]).length :: List.replicate ((qs ++ [v]).length - 1) 0, qs ++ [v],
       (qs ++ [v]).length - 1⟩ from group_params_extend qs v hne hlen]
  simp only [Prod.mk.injEq]
  constructor
  · simp [Parser.resetParams, Parser.new, Params.Clear, Params.new]
  · rw [Iter_single_group _ _ (by simp)]

/-- The full parser trace of `ESC [ 38:2:dr:dg:db m` (colon-separated
extended foreground color): one dispatch whose parameters form a single
group `[38, 2, vr, vg, vb]`. -/
theorem Advance_sgr_colon_trace (dr dg db : List Nat)
    (hr : dr ≠ [] ∧ (∀ d ∈ dr, 0x30 ≤ d ∧ d ≤ 0x39) ∧ fieldVal dr ≤ 9999)
    (hg : dg ≠ [] ∧ (∀ d ∈ dg, 0x30 ≤ d ∧ d ≤ 0x39) ∧ fieldVal dg ≤ 9999)
    (hb : db ≠ [] ∧ (∀ d ∈ db, 0x30 ≤ d ∧ d ≤ 0x39) ∧ fieldVal db ≤ 9999) :
    Parser.Advance Parser.new
        (0x1B :: 0x5B :: (0x33 :: 0x38 :: 0x3A :: 0x32 :: 0x3A ::
          (dr ++ 0x3A :: (dg ++ 0x3A :: (db ++ [0x6D]))))) =
      (Parser.new,
       [.csiDispatch [[38, 2, fieldVal dr, fieldVal dg, fieldVal db]] [] false 0x6D]) := by
  rw [Advance_csi_lead _ 0x33 _ rfl (by norm_num)]
  rw [run_csiParam_digit _ rfl 0x33 (by norm_num)]
  rw [run_csiParam_digit _ rfl 0x38 (by norm_num)]
  rw [run_csiParam_colon _ rfl]
  show Parser.run ((csiAcc [] 38 true).paramSubparam) _ = _
  rw [csiAcc_colon_first 38]
  rw [run_csiParam_digit _ rfl 0x32 (by norm_num)]
  rw [run_csiParam_colon _ rfl]
  show Parser.run ((csiSub [38] 2 true).paramSubparam) _ = _
  rw [csiSub_colon [38] 2 (by simp) (by simp)]
  simp only [List.cons_append, List.nil_append]
  obtain ⟨d1, dr', hdr⟩ : ∃ d1 dr', dr = d1 :: dr' := by
    cases dr with
    | nil => exact absurd rfl hr.1
    | cons a l => exact ⟨a, l, rfl⟩
  subst hdr
  rw [run_csiParam_field_ne d1 dr' _ hr.2.1 hr.2.2 rfl rfl]
  rw [run_csiParam_colon _ rfl]
  show Parser.run ((csiSub [38, 2] (fieldVal (d1 :: dr')) true).paramSubparam) _ = _
  rw [csiSub_colon [38, 2] _ (by simp) (by simp)]
  simp only [List.cons_append, List.nil_append]
  obtain ⟨d2, dg', hdg⟩ : ∃ d2 dg', dg = d2 :: dg' := by
    cases dg with
    | nil => exact absurd rfl hg.1
    | cons a l => exact ⟨a, l, rfl⟩
  subst hdg
  rw [run_csiParam_field_ne d2 dg' _ hg.2.1 hg.2.2 rfl rfl]
  rw [run_csiParam_colon _ rfl]
  show Parser.run
      ((csiSub [38, 2, fieldVal (d1 :: dr')] (fieldVal (d2 :: dg')) true).paramSubparam) _ = _
  rw [csiSub_colon [38, 2, fieldVal (d1 :: dr')] _ (by simp) (by simp)]
  simp only [List.cons_append, List.nil_append]
  obtain ⟨d3, db', hdb⟩ : ∃ d3 db', db = d3 :: db' := by
    cases db with
    | nil => exact absurd rfl hb.1
    | cons a l => exact ⟨a, l, rfl⟩
  subst hdb
  rw [run_csiParam_field_ne d3 db' _ hb.2.1 hb.2.2 rfl rfl]
  show Parser.run
      (csiSub [38, 2, fieldVal (d1 :: dr'), fieldVal (d2 :: dg')]
        (fieldVal (d3 :: db')) true) _ = _
  rw [run_csiSub_final _ _ _ (by simp) (by simp) (by norm_num)]
  simp

/-! ### OSC strings -/

theorem run_escape_rbracket (p : Parser) (hst : p.state = .escape) (tail : List Nat) :
    run p (0x5D :: tail) = run { p with state := .oscString } tail := by
  rw [run_cons_step p _ _ (by rw [hst]; simp)]
  simp only [step, hst, advanceEscape]
  split_ifs
  all_goals first
    | (exfalso; omega)
    | (simp; done)
    | (exfalso; simp_all; done)

theorem run_osc_a (p : Parser) (hst : p.state = .oscString) (tail : List Nat) :
    run p (0x61 :: tail) = run (p.oscPut 0x61) tail := by
  rw [run_cons_step p _ _ (by rw [hst]; simp)]
  simp only [step, hst, advanceOSCString]
  split_ifs
  all_goals first
    | (exfalso; omega)
    | (simp; done)
    | (exfalso; simp_all; done)

theorem run_osc_esc_full (p : Parser) (hst : p.state = .oscString)
    (hfull : ¬ p.oscRaw.length < 1024) (tail : List Nat) :
    run p (0x1B :: tail) = run p tail := by
  rw [run_cons_step p _ _ (by rw [hst]; simp)]
  simp only [step, hst, advanceOSCString]
  have hput : p.oscPut 0x1B = p := by
    simp [oscPut, MaxOSCRaw, hfull]
  split_ifs
  all_goals first
    | (exfalso; omega)
    | (simp [hput]; done)
    | (exfalso; simp_all; done)

theorem run_osc_backslash_noST (p : Parser) (hst : p.state = .oscString)
    (hlast : p.oscRaw.getLast? ≠ some 0x1B)
    (hfull : ¬ p.oscRaw.length < 1024) (tail : List Nat) :
    run p (0x5C :: tail) = run p tail := by
  rw [run_cons_step p _ _ (by rw [hst]; simp)]
  simp only [step, hst, advanceOSCString]
  have hput : p.oscPut 0x5C = p := by
    simp [oscPut, MaxOSCRaw, hfull]
  split_ifs
  all_goals first
    | (exfalso; omega)
    | (simp [hput]; done)
    | (exfalso; simp_all; done)

theorem run_osc_bel (p : Parser) (hst : p.state = .oscString) :
    run p [0x07] =
      ({ p.resetParams with state := .ground },
       [.oscDispatch (buildOscParams p.oscRaw p.oscParams 0) true]) := by
  rw [run_cons_step p _ _ (by rw [hst]; simp)]
  simp only [step, hst, advanceOSCString, Parser.oscDispatch]
  split_ifs
  all_goals first
    | (exfalso; omega)
    | (simp [run, runFuel]; done)
    | (exfalso; simp_all; done)

theorem oscAcc_put_lt (raw : List Nat) (h : raw.length < 1024) :
    (oscAcc raw).oscPut 0x61 = oscAcc (raw ++ [0x61]) := by
  simp [oscAcc, oscPut, MaxOSCRaw, h, Parser.new]

theorem run_oscAcc_fill (n : Nat) :
    ∀ (raw tail : List Nat), raw.length + n ≤ 1024 →
    run (oscAcc raw) (List.replicate n 0x61 ++ tail) =
      run (oscAcc (raw ++ List.replicate n 0x61)) tail := by
  induction n with
  | zero => intro raw tail _; simp
  | succ n ih =>
    intro raw tail hlen
    rw [List.replicate_succ, List.cons_append, run_osc_a _ rfl,
      oscAcc_put_lt raw (by omega), ih (raw ++ [0x61]) tail (by simp; omega)]
    simp

theorem run_oscAcc_drop (n : Nat) :
    ∀ (raw tail : List Nat), ¬ raw.length < 1024 →
    run (oscAcc raw) (List.replicate n 0x61 ++ tail) = run (oscAcc raw) tail := by
  induction n with
  | zero => intro raw tail _; simp
  | succ n ih =>
    intro raw tail hfull
    rw [List.replicate_succ, List.cons_append, run_osc_a _ rfl]
    have hput : (oscAcc raw).oscPut 0x61 = oscAcc raw := by
      simp [oscAcc, oscPut, MaxOSCRaw, hfull]
    rw [hput, ih raw tail hfull]

/-! ### DCS passthrough -/

theorem run_escape_P (p : Parser) (hst : p.state = .escape) (tail : List Nat) :
    run p (0x50 :: tail) = run { p with state := .dcsEntry } tail := by
  rw [run_cons_step p _ _ (by rw [hst]; simp)]
  simp only [step, hst, advanceEscape]
  split_ifs
  all_goals first
    | (exfalso; omega)
    | simp

theorem run_dcsEntry_q (tail : List Nat) :
    run { Parser.new with state := .dcsEntry } (0x71 :: tail) =
      ((run (dcsPass false) tail).1,
       .hook [] [] false 0x71 :: (run (dcsPass false) tail).2) := by
  rw [run_cons_step _ _ _ (by simp [Parser.new])]
  simp only [step, advanceDCSEntry]
  norm_num [finalizeDCSParam, Parser.new, Params.new, Params.Iter, Params.iterGo,
    dcsPass]

theorem run_dcsPass_esc (p : Parser) (hst : p.state = .dcsPassthrough) (tail : List Nat) :
    run p (0x1B :: tail) = run { p with pendingESC := true } tail := by
  rw [run_cons_step p _ _ (by rw [hst]; simp)]
  simp only [step, hst, advanceDCSPassthrough]
  split_ifs
  all_goals first
    | (exfalso; omega)
    | simp

theorem run_dcsPass_put (p : Parser) (hst : p.state = .dcsPassthrough)
    (hpend : p.pendingESC = false) (b : Nat)
    (hb : b ≠ 0x07 ∧ b ≠ 0x18 ∧ b ≠ 0x1A ∧ b ≠ 0x1B) (tail : List Nat) :
    run p (b :: tail) = ((run p tail).1, .put b :: (run p tail).2) := by
  rw [run_cons_step p _ _ (by rw [hst]; simp)]
  simp only [step, hst, advanceDCSPassthrough]
  split_ifs
  all_goals first
    | (exfalso; omega)
    | (simp; done)
    | (exfalso; simp_all; done)

theorem run_dcsPass_flush (p : Parser) (hst : p.state = .dcsPassthrough)
    (hpend : p.pendingESC = true) (b : Nat)
    (hb : b ≠ 0x07 ∧ b ≠ 0x18 ∧ b ≠ 0x1A ∧ b ≠ 0x1B ∧ b ≠ 0x5C) (tail : List Nat) :
    run p (b :: tail) =
      ((run { p with pendingESC := false } tail).1,
       .put 0x1B :: .put b :: (run { p with pendingESC := false } tail).2) := by
  rw [run_cons_step p _ _ (by rw [hst]; simp)]
  simp only [step, hst, advanceDCSPassthrough]
  split_ifs
  all_goals first
    | (exfalso; omega)
    | (simp; done)
    | (exfalso; simp_all; done)

theorem run_dcsPass_st (p : Parser) (hst : p.state = .dcsPassthrough)
    (hpend : p.pendingESC = true) :
    run p [0x5C] = ({ p with pendingESC := false, state := .ground }, [.unhook]) := by
  rw [run_cons_step p _ _ (by rw [hst]; simp)]
  simp only [step, hst, advanceDCSPassthrough]
  split_ifs
  all_goals first
    | (exfalso; omega)
    | (simp [run, runFuel]; done)
    | (exfalso; simp_all; done)

/-- A run of plain data bytes in DCS passthrough with no pending ESC:
each byte is `Put` and the parser is unchanged. -/
theorem run_dcsPass_payload (bs : List Nat) :
    ∀ (p : Parser), p.state = .dcsPassthrough → p.pendingESC = false →
    (∀ b ∈ bs, b ≠ 0x07 ∧ b ≠ 0x18 ∧ b ≠ 0x1A ∧ b ≠ 0x1B) →
    ∀ tail, run p (bs ++ tail) =
      ((run p tail).1, bs.map PEvent.put ++ (run p tail).2) := by
  induction bs with
  | nil => intro p _ _ _ tail; simp
  | cons b bs ih =>
    intro p hst hpend hall tail
    rw [List.cons_append, run_dcsPass_put p hst hpend b (hall b (by simp)),
      ih p hst hpend (fun x hx => hall x (by simp [hx]))]
    simp

/-- The complete parser trace of `ESC P q payload1 ESC payload2 ESC \`:
one Hook, per-byte Puts with the deferred inner ESC flushed before the
first byte of `payload2`, then Unhook. -/
theorem Advance_dcs_trace (payload1 payload2 : List Nat)
    (h1 : ∀ b ∈ payload1, b ≠ 0x07 ∧ b ≠ 0x18 ∧ b ≠ 0x1A ∧ b ≠ 0x1B)
    (h2 : ∀ b ∈ payload2, b ≠ 0x07 ∧ b ≠ 0x18 ∧ b ≠ 0x1A ∧ b ≠ 0x1B)
    (hne : payload2 ≠ []) (hhead : payload2.head? ≠ some 0x5C) :
    Parser.Advance Parser.new
        (0x1B :: 0x50 :: 0x71 :: (payload1 ++ 0x1B :: (payload2 ++ [0x1B, 0x5C]))) =
      (Parser.new,
       .hook [] [] false 0x71 ::
         ((payload1 ++ 0x1B :: payload2).map PEvent.put ++ [.unhook])) := by
  have hadv : Parser.Advance Parser.new
      (0x1B :: 0x50 :: 0x71 :: (payload1 ++ 0x1B :: (payload2 ++ [0x1B, 0x5C]))) =
      run Parser.new
        (0x1B :: 0x50 :: 0x71 :: (payload1 ++ 0x1B :: (payload2 ++ [0x1B, 0x5C]))) := rfl
  rw [hadv, run_ground_esc _ rfl, run_escape_P _ rfl]
  have hentry : ({ ({ Parser.new with state := .escape }).resetParams with
      state := .dcsEntry }) = { Parser.new with state := .dcsEntry } := rfl
  rw [hentry, run_dcsEntry_q]
  rw [run_dcsPass_payload payload1 (dcsPass false) rfl rfl h1]
  rw [run_dcsPass_esc _ rfl]
  rcases payload2 with _ | ⟨c, p2rest⟩
  · exact absurd rfl hne
  have hc : c ≠ 0x07 ∧ c ≠ 0x18 ∧ c ≠ 0x1A ∧ c ≠ 0x1B ∧ c ≠ 0x5C := by
    have := h2 c (by simp)
    refine ⟨this.1, this.2.1, this.2.2.1, this.2.2.2, ?_⟩
    intro hcc
    exact hhead (by rw [hcc]; rfl)
  rw [show (c :: p2rest) ++ [0x1B, 0x5C] = c :: (p2rest ++ [0x1B, 0x5C]) from rfl]
  rw [run_dcsPass_flush _ rfl rfl c hc]
  have hback : ({ ({ dcsPass false with pendingESC := true }) with
      pendingESC := false }) = dcsPass false := rfl
  rw [hback]
  rw [run_dcsPass_payload p2rest (dcsPass false) rfl rfl
    (fun x hx => h2 x (by simp [hx]))]
  rw [show ([0x1B, 0x5C] : List Nat) = 0x1B :: [0x5C] from rfl,
    run_dcsPass_esc _ rfl, run_dcsPass_st _ rfl rfl]
  simp [dcsPass, Parser.new]

end Parser

/-! ## C1: chunking invariance -/

/-- **C1** (code bug): chunking invariance fails.  Feeding `0xC3 0x41`
in one `Advance` call prints U+FFFD (for the truncated 2-byte starter)
followed by `'A'`; feeding `0xC3` then `0x41` in two calls prints only
U+FFFD — `advancePartialUTF8` consumes the `0x41` as part of the failed
code point, so the multisets of Performer calls differ. -/
theorem c1_chunking_invariance_fails :
    (Parser.Advance Parser.new [0xC3, 0x41]).2 =
      [.print RuneError, .print 0x41] ∧
    (let r := Parser.Advance Parser.new [0xC3]
     r.2 ++ (Parser.Advance r.1 [0x41]).2) = [.print RuneError] := by
  constructor
  · rfl
  · rfl

/-! ## C7: parameter digit saturation -/

/-- **C7** (code bug): digit accumulation does not saturate at 9999 —
the Go `uint16` multiplication wraps first.  The digits `70000` (CSI
`70000m`) produce the stored parameter `4464 = 70000 - 65536`, not
`9999`. -/
theorem c7_digit_saturation_wraps :
    (Parser.Advance Parser.new
        [0x1B, 0x5B, 0x37, 0x30, 0x30, 0x30, 0x30, 0x6D]).2 =
      [.csiDispatch [[4464]] [] false 0x6D] ∧ (4464 : Nat) ≠ 9999 := by
  constructor
  · rfl
  · decide

/-! ## C2: extended SGR colors, colon vs semicolon -/

/-- **C2** (counterexample): the semicolon form is not equivalent to
the colon form.  `ESC [ 38;2;255;128;64 m` parses into five singleton
parameter groups, so `processSGR` sees `38` alone (no sub-parameters —
no extended color) and then interprets the `2` group as SetAttribute
(Dim); no `SetForeground` at all, unlike `ESC [ 38:2:255:128:64 m`. -/
theorem c2_semicolon_differs :
    (Processor.Advance Processor.new 0
        [0x1B, 0x5B, 0x33, 0x38, 0x3B, 0x32, 0x3B, 0x32, 0x35, 0x35, 0x3B,
         0x31, 0x32, 0x38, 0x3B, 0x36, 0x34, 0x6D]).2 =
      [.setAttribute AttrDim] ∧
    (Processor.Advance Processor.new 0
        [0x1B, 0x5B, 0x33, 0x38, 0x3A, 0x32, 0x3A, 0x32, 0x35, 0x35, 0x3A,
         0x31, 0x32, 0x38, 0x3A, 0x36, 0x34, 0x6D]).2 =
      [.setForeground (NewRgbColor 255 128 64)] := by
  constructor
  · rfl
  · rfl

/-- **C2** (amended, confirmed as amended): the colon-separated form
`ESC [ 38:2:r:g:b m` (digit strings with values at most 255) makes the
Processor call exactly `SetForeground(Rgb{r,g,b})`; in particular
`\x1b[38:2:255:128:64m` yields `SetForeground(Rgb{255,128,64})`.  The
semicolon-separated form is NOT equivalent: it splits into singleton
groups and produces no `SetForeground` (see the counterexample). -/
theorem c2_extended_color_colon (dr dg db : List Nat)
    (hr : dr ≠ [] ∧ (∀ d ∈ dr, 0x30 ≤ d ∧ d ≤ 0x39) ∧ fieldVal dr ≤ 255)
    (hg : dg ≠ [] ∧ (∀ d ∈ dg, 0x30 ≤ d ∧ d ≤ 0x39) ∧ fieldVal dg ≤ 255)
    (hb : db ≠ [] ∧ (∀ d ∈ db, 0x30 ≤ d ∧ d ≤ 0x39) ∧ fieldVal db ≤ 255) :
    (Processor.Advance Processor.new 0
        (0x1B :: 0x5B :: (0x33 :: 0x38 :: 0x3A :: 0x32 :: 0x3A ::
          (dr ++ 0x3A :: (dg ++ 0x3A :: (db ++ [0x6D])))))).2 =
      [.setForeground (NewRgbColor (fieldVal dr) (fieldVal dg) (fieldVal db))] := by
  have htrace := Parser.Advance_sgr_colon_trace dr dg db
    ⟨hr.1, hr.2.1, le_trans hr.2.2 (by norm_num)⟩
    ⟨hg.1, hg.2.1, le_trans hg.2.2 (by norm_num)⟩
    ⟨hb.1, hb.2.1, le_trans hb.2.2 (by norm_num)⟩
  have hadv : Processor.Advance Processor.new 0
      (0x1B :: 0x5B :: (0x33 :: 0x38 :: 0x3A :: 0x32 :: 0x3A ::
        (dr ++ 0x3A :: (dg ++ 0x3A :: (db ++ [0x6D]))))) =
      Processor.runParser Processor.new
        (0x1B :: 0x5B :: (0x33 :: 0x38 :: 0x3A :: 0x32 :: 0x3A ::
          (dr ++ 0x3A :: (dg ++ 0x3A :: (db ++ [0x6D]))))) := rfl
  rw [hadv]
  simp only [Processor.runParser, Processor.new, htrace]
  have hminr : minUint16 (fieldVal dr) 255 = fieldVal dr := by
    unfold minUint16
    split_ifs
    · rfl
    · omega
  have hming : minUint16 (fieldVal dg) 255 = fieldVal dg := by
    unfold minUint16
    split_ifs
    · rfl
    · omega
  have hminb : minUint16 (fieldVal db) 255 = fieldVal db := by
    unfold minUint16
    split_ifs
    · rfl
    · omega
  simp [performEvents, performEvent, performCsi, processSGR, processSGRGroup,
    processExtendedColor, hminr, hming, hminb]

/-- Witness for `c2_extended_color_colon`: `\x1b[38:2:255:128:64m`. -/
theorem c2_extended_color_colon_witness :
    (Processor.Advance Processor.new 0
        (0x1B :: 0x5B :: (0x33 :: 0x38 :: 0x3A :: 0x32 :: 0x3A ::
          ([0x32, 0x35, 0x35] ++ 0x3A :: ([0x31, 0x32, 0x38] ++ 0x3A ::
            ([0x36, 0x34] ++ [0x6D])))))).2 =
      [.setForeground (NewRgbColor (fieldVal [0x32, 0x35, 0x35])
        (fieldVal [0x31, 0x32, 0x38]) (fieldVal [0x36, 0x34]))] :=
  c2_extended_color_colon [0x32, 0x35, 0x35] [0x31, 0x32, 0x38] [0x36, 0x34]
    (by decide) (by decide) (by decide)

/-! ## C3: synchronised-update gate -/

/-- **C3** (counterexample): `EndSynchronizedUpdate` does not parse the
buffered bytes.  Begin at time 0, advance the byte `'A'` at time 10
(inside the 150 ms window) — no Handler calls, as claimed — then End:
still no Handler calls ever occur for that byte, whereas parsing `'A'`
directly yields `Input('A')`. -/
theorem c3_end_sync_does_not_parse :
    (let p1 := Processor.BeginSynchronizedUpdate Processor.new 0
     let r2 := Processor.Advance p1 10 [0x41]
     let r3 := Processor.EndSynchronizedUpdate r2.1
     (r2.2 ++ (Processor.Advance r3.1 20 [0x42]).2, r3.1.syncState.buffer)) =
      ([.input 0x42], []) ∧
    (Processor.Advance Processor.new 0 [0x41]).2 = [.input 0x41] := by
  constructor
  · rfl
  · rfl

/-! ## C4: CSI parameter preservation -/

/-- **C4** (counterexample): a trailing empty field contributes no
group.  `ESC [ ; m` is `CSI p1;p2 m` with `k = 2` empty fields; the
claim requires params `[[0],[0]]`, but the dispatch carries `[[0]]` —
the final empty field is never pushed (`csiDispatch` only finalizes
when digits were seen). -/
theorem c4_trailing_empty_field :
    (Parser.Advance Parser.new [0x1B, 0x5B, 0x3B, 0x6D]).2 =
      [.csiDispatch [[0]] [] false 0x6D] ∧
    [[0]] ≠ [[0], [(0 : Nat)]] := by
  constructor
  · rfl
  · decide

/-- **C4** (amended, confirmed): for `1 ≤ k ≤ 32` fields, each a digit
string of value ≤ 9999 or empty with the last field non-empty, feeding
`ESC [ p1;…;pk X` (final byte `X ∈ 0x40..0x7E`) to a fresh parser
yields exactly one `CsiDispatch` whose params iterate as exactly the
`k` singleton groups `[[v1],…,[vk]]` with 0 substituted for each empty
field. -/
theorem c4_param_preservation (fields : List (List Nat)) (X : Nat)
    (hfields : ∀ f ∈ fields, (∀ d ∈ f, 0x30 ≤ d ∧ d ≤ 0x39) ∧ fieldVal f ≤ 9999)
    (hne : fields ≠ []) (hlast : fields.getLast? ≠ some [])
    (hlen : fields.length ≤ 32) (hX1 : 0x40 ≤ X) (hX2 : X ≤ 0x7E) :
    Parser.Advance Parser.new (0x1B :: 0x5B :: (fieldsBytes fields ++ [X])) =
      (Parser.new, [.csiDispatch (fields.map (fun f => [fieldVal f])) [] false X]) := by
  have hmain := Parser.run_csiAcc_fields fields [] X hfields hlast
    (by simpa using hlen) hne hX1 hX2
  simp only [List.nil_append, List.map_map, Function.comp] at hmain
  have hadv : Parser.Advance Parser.new (0x1B :: 0x5B :: (fieldsBytes fields ++ [X]))
      = Parser.run Parser.new (0x1B :: 0x5B :: (fieldsBytes fields ++ [X])) := rfl
  rw [hadv, Parser.run_ground_esc _ rfl, Parser.run_escape_lbracket _ rfl]
  rcases fields with _ | ⟨f1, fs⟩
  · exact absurd rfl hne
  rcases f1 with _ | ⟨d, ds⟩
  · rcases fs with _ | ⟨f2, fs2⟩
    · exact absurd (by simp [List.getLast?_singleton]) hlast
    · have hshape : fieldsBytes ([] :: f2 :: fs2) ++ [X] =
          0x3B :: (fieldsBytes (f2 :: fs2) ++ [X]) := by
        simp [fieldsBytes]
      rw [hshape, Parser.run_csiEntry_as_param _ rfl 0x3B (by tauto), ← hshape]
      exact hmain
  · have hd : 0x30 ≤ d ∧ d ≤ 0x39 := (hfields (d :: ds) (by simp)).1 d (by simp)
    have hshape : ∃ rest, fieldsBytes ((d :: ds) :: fs) ++ [X] = d :: rest := by
      cases fs <;> simp [fieldsBytes]
    obtain ⟨rest, hr⟩ := hshape
    rw [hr, Parser.run_csiEntry_as_param _ rfl d (by tauto), ← hr]
    exact hmain

/-- Witness for `c4_param_preservation`: `ESC [ 1 0 ; ; 2 0 H` (fields
`"10"`, `""`, `"20"`) dispatches `[[10],[0],[20]]`. -/
theorem c4_param_preservation_witness :
    Parser.Advance Parser.new
        (0x1B :: 0x5B :: (fieldsBytes [[0x31, 0x30], [], [0x32, 0x30]] ++ [0x48])) =
      (Parser.new,
       [.csiDispatch ([[0x31, 0x30], [], [0x32, 0x30]].map (fun f => [fieldVal f]))
         [] false 0x48]) :=
  c4_param_preservation [[0x31, 0x30], [], [0x32, 0x30]] 0x48
    (by decide) (by decide) (by decide) (by decide) (by decide) (by decide)

/-! ## C5: overflow flags -/

set_option maxRecDepth 40000 in
/-- **C5** (counterexample): a CSI with exactly 33 parameters (one
more than `MaxParams = 32`) drops the 33rd parameter but dispatches
with `ignore = false` — the dispatch-time `Params.Push` silently
no-ops on a full store without setting the `ignoring` flag, so
"parameters beyond 32 are dropped AND ignore=true" fails. -/
theorem c5_params_33_no_ignore :
    (Parser.Advance Parser.new
        ([0x1B, 0x5B] ++ (List.replicate 32 [0x31, 0x3B]).flatten ++
          [0x31, 0x6D])).2 =
      [.csiDispatch (List.replicate 32 [1]) [] false 0x6D] := by
  rfl

/-- More than `MaxIntermediates` intermediate bytes in a CSI: the
third and later ones are discarded and the dispatch carries
`ignore = true` with the first two intermediates. -/
theorem csi_intermediates_overflow (inters : List Nat) (X : Nat)
    (hin : ∀ b ∈ inters, 0x20 ≤ b ∧ b ≤ 0x2F) (h3 : 3 ≤ inters.length)
    (hX1 : 0x40 ≤ X) (hX2 : X ≤ 0x7E) :
    Parser.Advance Parser.new (0x1B :: 0x5B :: (inters ++ [X])) =
      (Parser.new, [.csiDispatch [] (inters.take 2) true X]) := by
  rcases inters with _ | ⟨i1, _ | ⟨i2, _ | ⟨i3, is2⟩⟩⟩
  · simp at h3
  · simp at h3
  · simp at h3
  have hadv : Parser.Advance Parser.new
      (0x1B :: 0x5B :: ((i1 :: i2 :: i3 :: is2) ++ [X])) =
      Parser.run Parser.new (0x1B :: 0x5B :: ((i1 :: i2 :: i3 :: is2) ++ [X])) := rfl
  rw [hadv, Parser.run_ground_esc _ rfl, Parser.run_escape_lbracket _ rfl]
  simp only [List.cons_append]
  rw [Parser.run_csiEntry_inter _ rfl i1 (hin i1 (by simp)),
    Parser.run_csiInter_collect _ rfl i2 (hin i2 (by simp)),
    Parser.run_csiInter_collect _ rfl i3 (hin i3 (by simp))]
  exact Parser.run_csiInterAcc_loop is2 i1 i2 X
    (fun x hx => hin x (by simp [hx])) hX1 hX2

/-- 34 or more CSI parameter fields: the store keeps only the first
32, a separator seen on the full store raises the overflow flag, and
the dispatch carries `ignore = true`. -/
theorem csi_params_overflow (fields : List (List Nat)) (X : Nat)
    (hfields : ∀ f ∈ fields, (∀ d ∈ f, 0x30 ≤ d ∧ d ≤ 0x39) ∧ fieldVal f ≤ 9999)
    (hlen : 34 ≤ fields.length) (hX1 : 0x40 ≤ X) (hX2 : X ≤ 0x7E) :
    Parser.Advance Parser.new (0x1B :: 0x5B :: (fieldsBytes fields ++ [X])) =
      (Parser.new,
       [.csiDispatch ((fields.take 32).map (fun f => [fieldVal f])) [] true X]) := by
  have hdropne : fields.drop 32 ≠ [] := by
    intro hc
    have := congrArg List.length hc
    simp at this
    omega
  have hb : ∃ b rest, fieldsBytes fields ++ [X] = b :: rest ∧
      ((0x30 ≤ b ∧ b ≤ 0x39) ∨ b = 0x3A ∨ b = 0x3B) := by
    obtain ⟨f1, fields1, hf⟩ : ∃ f1 fields1, fields = f1 :: fields1 := by
      cases fields with
      | nil => simp at hlen
      | cons a l => exact ⟨a, l, rfl⟩
    subst hf
    have hne1 : fields1 ≠ [] := by
      intro hc
      subst hc
      simp at hlen
    rcases f1 with _ | ⟨d, ds⟩
    · rw [Parser.fieldsBytes_cons_ne _ _ hne1]
      exact ⟨0x3B, fieldsBytes fields1 ++ [X], by simp, by tauto⟩
    · rw [Parser.fieldsBytes_cons_ne _ _ hne1]
      exact ⟨d, ds ++ 0x3B :: (fieldsBytes fields1 ++ [X]), by simp,
        Or.inl ((hfields (d :: ds) (by simp)).1 d (by simp))⟩
  obtain ⟨b, rest, hbr, hbc⟩ := hb
  rw [Parser.Advance_csi_lead _ b rest hbr hbc]
  rw [show fieldsBytes fields = fieldsBytes (fields.take 32 ++ fields.drop 32) by
    rw [List.take_append_drop]]
  rw [Parser.fieldsBytes_append _ _ hdropne, List.append_assoc]
  rw [Parser.run_csiAcc_fieldsSep (fields.take 32) []
    (fieldsBytes (fields.drop 32) ++ [X])
    (fun g hg => hfields g (List.take_subset 32 fields hg))
    (by simp)]
  have hlen32 : 32 ≤ ((fields.take 32).map fieldVal).length := by
    simp
    omega
  have hnil : ([] : List Nat) ++ (fields.take 32).map fieldVal =
      (fields.take 32).map fieldVal := List.nil_append _
  rw [hnil]
  have hfusion : ((fields.take 32).map fieldVal).map (fun w => [w]) =
      (fields.take 32).map (fun f => [fieldVal f]) := by
    rw [List.map_map]
    rfl
  rcases hdrop : fields.drop 32 with _ | ⟨f33, rest'⟩
  · exact absurd hdrop hdropne
  have hrest'ne : rest' ≠ [] := by
    intro hc
    subst hc
    have := congrArg List.length hdrop
    simp at this
    omega
  have hmem33 : ∀ g ∈ f33 :: rest', g ∈ fields := by
    intro g hg
    rw [← List.take_append_drop 32 fields, hdrop]
    exact List.mem_append_right _ hg
  have hphase2 := Parser.run_csiAccIgn_fields rest' ((fields.take 32).map fieldVal) X
    (fun g hg => hfields g (hmem33 g (by simp [hg]))) hlen32 hX1 hX2
  rw [Parser.fieldsBytes_cons_ne f33 rest' hrest'ne]
  rcases f33 with _ | ⟨d, ds⟩
  · simp only [List.nil_append, List.cons_append]
    rw [Parser.run_csiParam_semi _ rfl,
      Parser.csiAcc_sep_ofFull_empty _ hlen32, hphase2, hfusion]
  · have hfd := (hfields (d :: ds) (hmem33 _ (by simp)))
    have hsh : ((d :: ds) ++ 0x3B :: fieldsBytes rest') ++ [X] =
        (d :: ds) ++ (0x3B :: (fieldsBytes rest' ++ [X])) := by simp
    rw [hsh, Parser.run_csiParam_field_ne d ds _ hfd.1 hfd.2 rfl rfl]
    have hacc : ({ csiAcc ((fields.take 32).map fieldVal) 0 false with
        currentParam := fieldVal (d :: ds), hasCurrentParam := true }) =
        csiAcc ((fields.take 32).map fieldVal) (fieldVal (d :: ds)) true := rfl
    rw [hacc, Parser.run_csiParam_semi _ rfl,
      Parser.csiAcc_sep_ofFull_val _ _ hlen32, hphase2, hfusion]

/-- **C5** (amended, confirmed as amended): (a) a CSI with more than
`MaxIntermediates = 2` intermediate bytes dispatches with
`ignore = true` (keeping the first two); (b) parameters beyond
`MaxParams = 32` are dropped, and with 34 or more parameters — i.e. as
soon as a separator arrives on the full store — the dispatch carries
`ignore = true`.  (With exactly 33 parameters the 33rd is dropped
silently with `ignore = false`, see the counterexample.) -/
theorem c5_overflow_flags :
    (∀ (inters : List Nat) (X : Nat),
      (∀ b ∈ inters, 0x20 ≤ b ∧ b ≤ 0x2F) → 3 ≤ inters.length →
      0x40 ≤ X → X ≤ 0x7E →
      Parser.Advance Parser.new (0x1B :: 0x5B :: (inters ++ [X])) =
        (Parser.new, [.csiDispatch [] (inters.take 2) true X])) ∧
    (∀ (fields : List (List Nat)) (X : Nat),
      (∀ f ∈ fields, (∀ d ∈ f, 0x30 ≤ d ∧ d ≤ 0x39) ∧ fieldVal f ≤ 9999) →
      34 ≤ fields.length → 0x40 ≤ X → X ≤ 0x7E →
      Parser.Advance Parser.new (0x1B :: 0x5B :: (fieldsBytes fields ++ [X])) =
        (Parser.new,
         [.csiDispatch ((fields.take 32).map (fun f => [fieldVal f])) [] true X])) :=
  ⟨csi_intermediates_overflow, csi_params_overflow⟩

set_option maxRecDepth 40000 in
/-- Witness for `c5_overflow_flags`: three `!` intermediates, and 34
parameters `1;…;1`. -/
theorem c5_overflow_flags_witness :
    (Parser.Advance Parser.new
        (0x1B :: 0x5B :: ([0x21, 0x22, 0x23] ++ [0x6D])) =
      (Parser.new, [.csiDispatch [] ([0x21, 0x22, 0x23].take 2) true 0x6D])) ∧
    (Parser.Advance Parser.new
        (0x1B :: 0x5B :: (fieldsBytes (List.replicate 34 [0x31]) ++ [0x6D])) =
      (Parser.new,
       [.csiDispatch (((List.replicate 34 [0x31]).take 32).map
          (fun f => [fieldVal f])) [] true 0x6D])) :=
  ⟨c5_overflow_flags.1 [0x21, 0x22, 0x23] 0x6D (by decide) (by decide)
      (by decide) (by decide),
   c5_overflow_flags.2 (List.replicate 34 [0x31]) 0x6D (by decide) (by decide)
      (by decide) (by decide)⟩

/-! ## C6: DCS payload batching -/

/-- **C6** (counterexample): with an empty `payload2` — body
`"a" + ESC + ESC \` where the byte after the inner ESC is the ESC of
the terminator, not `'\'` — the deferred inner ESC is silently dropped
(`pendingESC` is simply re-armed), so the Handler's single `Put`
carries only `"a"`, not `"a" + 0x1B` as the claim requires. -/
theorem c6_empty_payload2 :
    (Processor.Advance Processor.new 0
        [0x1B, 0x50, 0x71, 0x61, 0x1B, 0x1B, 0x5C]).2 =
      [.hook [] [] false 0x71, .put [0x61], .unhook] ∧
    [(0x61 : Nat)] ≠ [0x61, 0x1B] := by
  constructor
  · rfl
  · decide

/-- **C3** (amended, confirmed): while `sync_enabled` is true and the
timeout has not elapsed, `Advance` appends the incoming bytes to the
sync buffer and invokes no Handler method; `EndSynchronizedUpdate`
also invokes no Handler method and does not parse the buffer — it
leaves the parser untouched, writes the buffer to the output sink when
one is attached, and clears the flag and buffer.  (The buffer is
parsed only on the timeout path of `Advance`.) -/
theorem c3_sync_gate :
    (∀ (proc : Processor) (now : Nat) (bytes : List Nat),
      proc.syncState.enabled = true →
      now - proc.syncState.startTime ≤ proc.syncState.timeout →
      Processor.Advance proc now bytes =
        ({ proc with syncState :=
           { proc.syncState with buffer := proc.syncState.buffer ++ bytes } }, [])) ∧
    (∀ proc : Processor,
      proc.syncState.enabled = true →
      (proc.EndSynchronizedUpdate.1.parser = proc.parser ∧
       proc.EndSynchronizedUpdate.1.syncState.enabled = false ∧
       proc.EndSynchronizedUpdate.1.syncState.buffer = [] ∧
       proc.EndSynchronizedUpdate.2 =
         (if proc.hasOutput ∧ proc.syncState.buffer.length > 0 then
            proc.syncState.buffer
          else []))) := by
  constructor
  · intro proc now bytes hen htime
    simp only [Processor.Advance, hen, if_true]
    rw [if_neg (by omega)]
  · intro proc hen
    simp [Processor.EndSynchronizedUpdate, hen]

/-- Witness for `c3_sync_gate` at a concrete processor and input. -/
theorem c3_sync_gate_witness :
    (Processor.Advance
        (Processor.BeginSynchronizedUpdate Processor.new 0) 10 [0x41] =
      ({ Processor.BeginSynchronizedUpdate Processor.new 0 with syncState :=
         { (Processor.BeginSynchronizedUpdate Processor.new 0).syncState with
           buffer := (Processor.BeginSynchronizedUpdate Processor.new 0).syncState.buffer ++ [0x41] } },
       [])) ∧
    ((Processor.BeginSynchronizedUpdate Processor.new 0).EndSynchronizedUpdate.1.parser
        = (Processor.BeginSynchronizedUpdate Processor.new 0).parser ∧
      (Processor.BeginSynchronizedUpdate Processor.new 0).EndSynchronizedUpdate.1.syncState.enabled = false ∧
      (Processor.BeginSynchronizedUpdate Processor.new 0).EndSynchronizedUpdate.1.syncState.buffer = [] ∧
      (Processor.BeginSynchronizedUpdate Processor.new 0).EndSynchronizedUpdate.2 =
        (if (Processor.BeginSynchronizedUpdate Processor.new 0).hasOutput ∧
            (Processor.BeginSynchronizedUpdate Processor.new 0).syncState.buffer.length > 0 then
           (Processor.BeginSynchronizedUpdate Processor.new 0).syncState.buffer
         else [])) :=
  ⟨c3_sync_gate.1 (Processor.BeginSynchronizedUpdate Processor.new 0) 10 [0x41]
      (by decide) (by decide),
   c3_sync_gate.2 (Processor.BeginSynchronizedUpdate Processor.new 0) (by decide)⟩

/-- Buffered `Put` bytes accumulate in the DCS buffer and emit no
Handler events while the DCS is active. -/
theorem performEvents_puts (bs : List Nat) :
    ∀ (buf : List Nat) (rest : List PEvent),
    performEvents ⟨true, buf⟩ (bs.map PEvent.put ++ rest) =
      performEvents ⟨true, buf ++ bs⟩ rest := by
  induction bs with
  | nil => intro buf rest; simp
  | cons b bs ih =>
    intro buf rest
    simp only [List.map_cons, List.cons_append, performEvents, performEvent,
      if_true, List.append_eq]
    rw [ih (buf ++ [b]) rest]
    simp

/-- **C6** (amended, confirmed as amended): for payloads free of the
terminating bytes BEL/CAN/SUB/ESC, with `payload2` non-empty and not
starting with `'\'`, the DCS body `payload1 + ESC + payload2 + ESC \`
makes the Processor deliver exactly one `Put` carrying
`payload1 + 0x1B + payload2`, after the Hook and before the Unhook.
(When `payload2` is empty the deferred inner ESC is dropped and the
`Put` carries only `payload1`, see the counterexample.) -/
theorem c6_dcs_batching (payload1 payload2 : List Nat)
    (h1 : ∀ b ∈ payload1, b ≠ 0x07 ∧ b ≠ 0x18 ∧ b ≠ 0x1A ∧ b ≠ 0x1B)
    (h2 : ∀ b ∈ payload2, b ≠ 0x07 ∧ b ≠ 0x18 ∧ b ≠ 0x1A ∧ b ≠ 0x1B)
    (hne : payload2 ≠ []) (hhead : payload2.head? ≠ some 0x5C) :
    (Processor.Advance Processor.new 0
        (0x1B :: 0x50 :: 0x71 :: (payload1 ++ 0x1B :: (payload2 ++ [0x1B, 0x5C])))).2 =
      [.hook [] [] false 0x71, .put (payload1 ++ 0x1B :: payload2), .unhook] := by
  have htrace := Parser.Advance_dcs_trace payload1 payload2 h1 h2 hne hhead
  have hadv : Processor.Advance Processor.new 0
      (0x1B :: 0x50 :: 0x71 :: (payload1 ++ 0x1B :: (payload2 ++ [0x1B, 0x5C]))) =
      Processor.runParser Processor.new
        (0x1B :: 0x50 :: 0x71 :: (payload1 ++ 0x1B :: (payload2 ++ [0x1B, 0x5C]))) := rfl
  rw [hadv]
  simp only [Processor.runParser, Processor.new, htrace]
  simp only [performEvents, performEvent]
  rw [show (payload1 ++ 0x1B :: payload2).map PEvent.put ++ [PEvent.unhook] =
      (payload1 ++ 0x1B :: payload2).map PEvent.put ++ [PEvent.unhook] from rfl,
    performEvents_puts (payload1 ++ 0x1B :: payload2) [] [PEvent.unhook]]
  have hlen : ([] ++ (payload1 ++ 0x1B :: payload2)).length > 0 := by simp
  simp [performEvents, performEvent, hlen]

/-- Witness for `c6_dcs_batching`: `ESC P q a ESC m ESC \` delivers
`Put("a" + ESC + "m")` once, between Hook and Unhook. -/
theorem c6_dcs_batching_witness :
    (Processor.Advance Processor.new 0
        (0x1B :: 0x50 :: 0x71 :: ([0x61] ++ 0x1B :: ([0x6D] ++ [0x1B, 0x5C])))).2 =
      [.hook [] [] false 0x71, .put ([0x61] ++ 0x1B :: [0x6D]), .unhook] :=
  c6_dcs_batching [0x61] [0x6D] (by decide) (by decide) (by decide) (by decide)

/-! ## C8: OSC overflow truncation -/

/-- **C8** (code bug): an OSC body longer than `MaxOSCRaw = 1024`
bytes cannot be terminated by `ESC \` —  the ESC is dropped by the
full buffer, so the following `\` is treated as content and no
`OscDispatch` is ever emitted (the parser stays in `OSCString`).
BEL termination still works, emitting the truncated 1024-byte
payload. -/
theorem c8_osc_st_overflow_no_dispatch :
    (Parser.Advance Parser.new
        (0x1B :: 0x5D :: (List.replicate 1025 0x61 ++ [0x1B, 0x5C]))).2 = [] ∧
    (Parser.Advance Parser.new
        (0x1B :: 0x5D :: (List.replicate 1025 0x61 ++ [0x1B, 0x5C]))).1.state =
      State.oscString ∧
    (Parser.Advance Parser.new
        (0x1B :: 0x5D :: (List.replicate 1025 0x61 ++ [0x07]))).2 =
      [.oscDispatch [List.replicate 1024 0x61] true] := by
  have hsplit : List.replicate 1025 0x61 =
      List.replicate 1024 0x61 ++ List.replicate 1 0x61 := by
    rw [← List.replicate_add]
  have hfull : ¬ (List.replicate 1024 0x61).length < 1024 := by
    rw [List.length_replicate]
    omega
  have hlast : (List.replicate 1024 0x61).getLast? ≠ some 0x1B := by
    rw [show (1024 : Nat) = 1023 + 1 from rfl, List.replicate_succ',
      List.getLast?_concat]
    decide
  have hcommon : ∀ tail : List Nat,
      Parser.run (oscAcc []) (List.replicate 1025 0x61 ++ tail) =
      Parser.run (oscAcc (List.replicate 1024 0x61)) tail := by
    intro tail
    rw [hsplit, List.append_assoc,
      Parser.run_oscAcc_fill 1024 [] (List.replicate 1 0x61 ++ tail)
        (by rw [List.length_nil]),
      List.nil_append,
      Parser.run_oscAcc_drop 1 (List.replicate 1024 0x61) tail hfull]
  have hpre : ∀ body : List Nat,
      Parser.Advance Parser.new (0x1B :: 0x5D :: body) =
        Parser.run (oscAcc []) body := by
    intro body
    have hadv : Parser.Advance Parser.new (0x1B :: 0x5D :: body) =
        Parser.run Parser.new (0x1B :: 0x5D :: body) := rfl
    rw [hadv, Parser.run_ground_esc _ rfl, Parser.run_escape_rbracket _ rfl]
    rfl
  have hfull2 : ¬ (oscAcc (List.replicate 1024 0x61)).oscRaw.length < 1024 := hfull
  have hlast2 : (oscAcc (List.replicate 1024 0x61)).oscRaw.getLast? ≠ some 0x1B := hlast
  refine ⟨?_, ?_, ?_⟩
  · rw [hpre, hcommon [0x1B, 0x5C],
      show ([0x1B, 0x5C] : List Nat) = 0x1B :: [0x5C] from rfl,
      Parser.run_osc_esc_full _ rfl hfull2,
      Parser.run_osc_backslash_noST _ rfl hlast2 hfull2]
    rfl
  · rw [hpre, hcommon [0x1B, 0x5C],
      show ([0x1B, 0x5C] : List Nat) = 0x1B :: [0x5C] from rfl,
      Parser.run_osc_esc_full _ rfl hfull2,
      Parser.run_osc_backslash_noST _ rfl hlast2 hfull2]
    rfl
  · rw [hpre, hcommon [0x07], Parser.run_osc_bel _ rfl]
    have hbuild : Parser.buildOscParams (oscAcc (List.replicate 1024 0x61)).oscRaw
        (oscAcc (List.replicate 1024 0x61)).oscParams 0 =
        [List.replicate 1024 0x61] := by
      show Parser.buildOscParams (List.replicate 1024 0x61) [] 0 = _
      unfold Parser.buildOscParams
      rw [if_pos (by rw [List.length_replicate]; omega), List.drop_zero]
    rw [hbuild]

/-! ## C10: ignored CSI dispatches invoke no Handler method -/

/-- **C10** (confirmed): a `CsiDispatch` with `ignore = true` makes the
built-in Processor invoke no Handler method at all and leave its state
untouched: the malformed sequence is discarded, not forwarded. -/
theorem c10_ignored_csi_silent (d : DCSState) (params : List (List Nat))
    (intermediates : List Nat) (action : Nat) :
    performEvent d (.csiDispatch params intermediates true action) = (d, []) := by
  simp [performEvent, performCsi]


/-! ## C9: a UTF-8 code point split across two `Advance` calls -/

/-- `decodeRune` never reports a size above 4. -/
theorem decodeRune_size_le (bs : List Nat) : (decodeRune bs).2 ≤ 4 := by
  rcases bs with _ | ⟨b0, _ | ⟨b1, _ | ⟨b2, _ | ⟨b3, r⟩⟩⟩⟩ <;>
    simp only [decodeRune] <;>
    first
    | (split_ifs <;> simp)
    | simp

/-- A nonzero row of Go's `acceptRanges` table has size in `[2,4]`,
starter at least `0xC2`, and a continuation range inside `[0x80,0xBF]`. -/
theorem utf8SizeAccept_inv (b0 sz lo hi : Nat)
    (h : utf8SizeAccept b0 = (sz, lo, hi)) (hsz : sz ≠ 0) :
    0xC2 ≤ b0 ∧ b0 ≤ 0xF4 ∧ 0x80 ≤ lo ∧ hi ≤ 0xBF ∧ 2 ≤ sz ∧ sz ≤ 4 := by
  simp only [utf8SizeAccept] at h
  split_ifs at h <;> (simp only [Prod.mk.injEq] at h; omega)

/-- Inversion of a successful two-byte decode. -/
theorem decodeRune_inv2 (b0 b1 c sz lo hi : Nat)
    (husa : utf8SizeAccept b0 = (sz, lo, hi))
    (h : decodeRune [b0, b1] = (c, 2)) :
    sz ≠ 0 ∧ sz ≤ 2 ∧ 0x80 ≤ b0 ∧ lo ≤ b1 ∧ b1 ≤ hi := by
  simp only [decodeRune, husa, List.length_cons, List.length_nil] at h
  split_ifs at h <;> simp only [Prod.mk.injEq] at h <;> omega

/-- Inversion of a successful three-byte decode. -/
theorem decodeRune_inv3 (b0 b1 b2 c sz lo hi : Nat)
    (husa : utf8SizeAccept b0 = (sz, lo, hi))
    (h : decodeRune [b0, b1, b2] = (c, 3)) :
    sz ≠ 0 ∧ sz ≤ 3 ∧ sz ≠ 2 ∧ 0x80 ≤ b0 ∧ lo ≤ b1 ∧ b1 ≤ hi ∧
      0x80 ≤ b2 ∧ b2 ≤ 0xBF := by
  simp only [decodeRune, husa, List.length_cons, List.length_nil] at h
  split_ifs at h <;> simp only [Prod.mk.injEq] at h <;> omega

/-- Inversion of a successful four-byte decode. -/
theorem decodeRune_inv4 (b0 b1 b2 b3 c sz lo hi : Nat)
    (husa : utf8SizeAccept b0 = (sz, lo, hi))
    (h : decodeRune [b0, b1, b2, b3] = (c, 4)) :
    sz ≠ 0 ∧ sz ≤ 4 ∧ sz ≠ 2 ∧ sz ≠ 3 ∧ 0x80 ≤ b0 ∧ lo ≤ b1 ∧ b1 ≤ hi ∧
      0x80 ≤ b2 ∧ b2 ≤ 0xBF ∧ 0x80 ≤ b3 ∧ b3 ≤ 0xBF := by
  simp only [decodeRune, husa, List.length_cons, List.length_nil] at h
  split_ifs at h <;> simp only [Prod.mk.injEq] at h <;> omega

/-- A strict prefix of a multi-byte sequence decodes to `(RuneError, 1)`. -/
theorem decodeRune_prefix_of_short (b0 : Nat) (pre : List Nat) (sz lo hi : Nat)
    (husa : utf8SizeAccept b0 = (sz, lo, hi)) (hb0 : 0x80 ≤ b0)
    (hsz : sz ≠ 0) (hshort : pre.length + 1 < sz) :
    decodeRune (b0 :: pre) = (0xFFFD, 1) := by
  simp only [decodeRune, husa]
  rw [if_neg (by omega), if_neg hsz, if_pos hshort]
  rfl

/-- A lone multi-byte starter is not a full rune. -/
theorem fullRune_one (b0 sz lo hi : Nat)
    (husa : utf8SizeAccept b0 = (sz, lo, hi)) (hb0 : 0x80 ≤ b0)
    (hsz : 2 ≤ sz) : fullRune [b0] = false := by
  simp only [fullRune, husa, List.length_nil]
  split_ifs <;> first | rfl | (exfalso; omega)

/-- A starter of size at least 3 followed by one in-range continuation
byte is not a full rune. -/
theorem fullRune_two (b0 b1 sz lo hi : Nat)
    (husa : utf8SizeAccept b0 = (sz, lo, hi)) (hb0 : 0x80 ≤ b0)
    (hsz : 3 ≤ sz) (hb1lo : lo ≤ b1) (hb1hi : b1 ≤ hi) :
    fullRune [b0, b1] = false := by
  simp only [fullRune, husa, List.length_cons, List.length_nil]
  split_ifs <;> first | rfl | (exfalso; omega)

/-- A four-byte starter followed by two in-range continuation bytes is
not a full rune. -/
theorem fullRune_three (b0 b1 b2 sz lo hi : Nat)
    (husa : utf8SizeAccept b0 = (sz, lo, hi)) (hb0 : 0x80 ≤ b0)
    (hsz : 4 ≤ sz) (hb1lo : lo ≤ b1) (hb1hi : b1 ≤ hi)
    (hb2lo : 0x80 ≤ b2) (hb2hi : b2 ≤ 0xBF) :
    fullRune [b0, b1, b2] = false := by
  simp only [fullRune, husa, List.length_cons, List.length_nil]
  split_ifs <;> first | rfl | (exfalso; omega)

theorem newPartial_partialUTF8 (l : List Nat) :
    (newPartial l).partialUTF8 = l := rfl

theorem newPartial_clear (l : List Nat) :
    ({ newPartial l with partialUTF8 := [] } : Parser) = Parser.new := rfl

/-- Feeding a fresh parser an incomplete UTF-8 prefix saves it in
`partialUTF8` and emits nothing. -/
theorem Advance_incomplete_lead (b0 : Nat) (pre : List Nat)
    (hb0 : 0xC0 ≤ b0) (hlen : pre.length ≤ 3)
    (hdec : decodeRune (b0 :: pre) = (0xFFFD, 1))
    (hfull : fullRune (b0 :: pre) = false) :
    Parser.Advance Parser.new (b0 :: pre) = (newPartial (b0 :: pre), []) := by
  have h1 : Parser.Advance Parser.new (b0 :: pre) =
      Parser.run Parser.new (b0 :: pre) := rfl
  have hg : Parser.advanceGround Parser.new (b0 :: pre) =
      (newPartial (b0 :: pre), [], (b0 :: pre).length) := by
    simp only [Parser.advanceGround]
    rw [if_neg (by omega), if_neg (by omega), if_neg (by omega),
      if_pos (by omega), if_pos (by omega)]
    simp only [Parser.handleUTF8, hdec]
    rw [if_pos (show (0xFFFD : Nat) = RuneError from rfl)]
    rw [if_pos (show True ∧ ¬fullRune (b0 :: pre) = true from
      ⟨trivial, by simp [hfull]⟩)]
    rw [List.take_of_length_le (by simp only [List.length_cons]; omega)]
    rfl
  rw [h1, Parser.run_cons_ground _ _ _ rfl]
  simp only [hg]
  rw [show (b0 :: pre).length - 1 = pre.length by
    simp only [List.length_cons]
    omega]
  rw [List.drop_length, Parser.run_nil]
  rfl

/-- A parser holding an incomplete UTF-8 prefix completes the code point
from the next `Advance` call and prints it once. -/
theorem Advance_completion (pre : List Nat) (r0 : Nat) (rest : List Nat)
    (c L : Nat)
    (hdec : decodeRune (pre ++ r0 :: rest) = (c, L))
    (hlen : (pre ++ r0 :: rest).length = L)
    (hpne : pre ≠ []) (hr0 : 0x80 ≤ r0) (hL4 : L ≤ 4) :
    Parser.Advance (newPartial pre) (r0 :: rest) = (Parser.new, [.print c]) := by
  have hplen : 0 < pre.length := List.length_pos.2 hpne
  have hlen' : pre.length + (rest.length + 1) = L := by
    simpa using hlen
  have hadv : Parser.advancePartialUTF8 (newPartial pre) (r0 :: rest) =
      (Parser.new, [.print c], (r0 :: rest).length) := by
    simp only [Parser.advancePartialUTF8, newPartial_partialUTF8]
    rw [if_neg (by omega)]
    have hmin : min (4 - pre.length) ((r0 :: rest).length) =
        (r0 :: rest).length := by
      apply min_eq_right
      simp only [List.length_cons]
      omega
    rw [hmin, List.take_length, hdec]
    by_cases hc : c = 0xFFFD
    · subst hc
      rw [if_neg (by simp [RuneError])]
      rw [if_neg (by
        rintro ⟨h1, -⟩
        have hL1 : L = 1 := h1
        omega)]
      rw [newPartial_clear]
      rfl
    · rw [if_pos (by simpa [RuneError] using hc)]
      rw [newPartial_clear]
      have h3 : L - pre.length = (r0 :: rest).length := by
        simp only [List.length_cons]
        omega
      show (Parser.new, [PEvent.print c], L - pre.length) =
        (Parser.new, [PEvent.print c], (r0 :: rest).length)
      rw [h3]
  simp only [Parser.Advance, newPartial_partialUTF8]
  rw [if_pos hplen]
  simp only [hadv]
  rw [List.drop_length, Parser.run_nil]
  rfl

/-- Splitting a multi-byte UTF-8 code point anywhere across two
`Advance` calls prints it exactly once. -/
theorem c9_glue (b0 : Nat) (pre : List Nat) (r0 : Nat) (rest : List Nat)
    (c L : Nat)
    (hdec : decodeRune ((b0 :: pre) ++ r0 :: rest) = (c, L))
    (hlen : ((b0 :: pre) ++ r0 :: rest).length = L)
    (hb0 : 0xC0 ≤ b0) (hpre3 : pre.length ≤ 3)
    (hpdec : decodeRune (b0 :: pre) = (0xFFFD, 1))
    (hpfull : fullRune (b0 :: pre) = false)
    (hr0 : 0x80 ≤ r0) (hL4 : L ≤ 4) :
    (Parser.Advance Parser.new (b0 :: pre)).2 ++
      (Parser.Advance (Parser.Advance Parser.new (b0 :: pre)).1
        (r0 :: rest)).2 = [.print c] := by
  rw [Advance_incomplete_lead b0 pre hb0 hpre3 hpdec hpfull]
  show [] ++ (Parser.Advance (newPartial (b0 :: pre)) (r0 :: rest)).2 = _
  rw [Advance_completion (b0 :: pre) r0 rest c L hdec hlen
    (by simp) hr0 hL4]
  rfl

/-- **C9** (confirmed): a valid UTF-8 code point of byte length
`L ∈ {2,3,4}` split at any interior position `k` across two `Advance`
calls of a fresh ground-state parser delivers exactly one `Print`
carrying that code point across the two calls. -/
theorem c9_utf8_split (bs : List Nat) (c L k : Nat)
    (hdec : decodeRune bs = (c, L)) (hlen : bs.length = L)
    (hL : 2 ≤ L) (hk1 : 1 ≤ k) (hkL : k < L) :
    (Parser.Advance Parser.new (bs.take k)).2 ++
      (Parser.Advance (Parser.Advance Parser.new (bs.take k)).1
        (bs.drop k)).2 = [.print c] := by
  have hL4 : L ≤ 4 := by
    have hs := decodeRune_size_le bs
    rw [hdec] at hs
    simpa using hs
  rcases bs with _ | ⟨b0, _ | ⟨b1, _ | ⟨b2, _ | ⟨b3, _ | ⟨b4, more⟩⟩⟩⟩⟩
  · simp only [List.length_nil] at hlen
    omega
  · simp only [List.length_cons, List.length_nil] at hlen
    omega
  · -- two bytes, so k = 1
    simp only [List.length_cons, List.length_nil] at hlen
    have hL2 : L = 2 := by omega
    subst hL2
    have hk : k = 1 := by omega
    subst hk
    rcases husa : utf8SizeAccept b0 with ⟨sz, lo, hi⟩
    obtain ⟨hsz0, hsz2, hb080, hb1lo, hb1hi⟩ :=
      decodeRune_inv2 b0 b1 c sz lo hi husa hdec
    obtain ⟨hb0C2, hb0F4, hlo, hhi, hsz2', hsz4⟩ :=
      utf8SizeAccept_inv b0 sz lo hi husa hsz0
    exact c9_glue b0 [] b1 [] c 2 hdec hlen (by omega) (by simp)
      (decodeRune_prefix_of_short b0 [] sz lo hi husa hb080 hsz0
        (by simp only [List.length_nil]; omega))
      (fullRune_one b0 sz lo hi husa hb080 hsz2')
      (by omega) (by omega)
  · -- three bytes, so k = 1 or k = 2
    simp only [List.length_cons, List.length_nil] at hlen
    have hL3 : L = 3 := by omega
    subst hL3
    rcases husa : utf8SizeAccept b0 with ⟨sz, lo, hi⟩
    obtain ⟨hsz0, hsz3, hszn2, hb080, hb1lo, hb1hi, hb2lo, hb2hi⟩ :=
      decodeRune_inv3 b0 b1 b2 c sz lo hi husa hdec
    obtain ⟨hb0C2, hb0F4, hlo, hhi, hsz2', hsz4⟩ :=
      utf8SizeAccept_inv b0 sz lo hi husa hsz0
    interval_cases k
    · exact c9_glue b0 [] b1 [b2] c 3 hdec hlen (by omega) (by simp)
        (decodeRune_prefix_of_short b0 [] sz lo hi husa hb080 hsz0
          (by simp only [List.length_nil]; omega))
        (fullRune_one b0 sz lo hi husa hb080 hsz2')
        (by omega) (by omega)
    · exact c9_glue b0 [b1] b2 [] c 3 hdec hlen (by omega) (by simp)
        (decodeRune_prefix_of_short b0 [b1] sz lo hi husa hb080 hsz0
          (by simp only [List.length_cons, List.length_nil]; omega))
        (fullRune_two b0 b1 sz lo hi husa hb080 (by omega) hb1lo hb1hi)
        (by omega) (by omega)
  · -- four bytes, so k ∈ {1, 2, 3}
    simp only [List.length_cons, List.length_nil] at hlen
    have hL4' : L = 4 := by omega
    subst hL4'
    rcases husa : utf8SizeAccept b0 with ⟨sz, lo, hi⟩
    obtain ⟨hsz0, hszle4, hszn2, hszn3, hb080, hb1lo, hb1hi, hb2lo, hb2hi,
        hb3lo, hb3hi⟩ :=
      decodeRune_inv4 b0 b1 b2 b3 c sz lo hi husa hdec
    obtain ⟨hb0C2, hb0F4, hlo, hhi, hsz2', hsz4⟩ :=
      utf8SizeAccept_inv b0 sz lo hi husa hsz0
    interval_cases k
    · exact c9_glue b0 [] b1 [b2, b3] c 4 hdec hlen (by omega) (by simp)
        (decodeRune_prefix_of_short b0 [] sz lo hi husa hb080 hsz0
          (by simp only [List.length_nil]; omega))
        (fullRune_one b0 sz lo hi husa hb080 hsz2')
        (by omega) (by omega)
    · exact c9_glue b0 [b1] b2 [b3] c 4 hdec hlen (by omega) (by simp)
        (decodeRune_prefix_of_short b0 [b1] sz lo hi husa hb080 hsz0
          (by simp only [List.length_cons, List.length_nil]; omega))
        (fullRune_two b0 b1 sz lo hi husa hb080 (by omega) hb1lo hb1hi)
        (by omega) (by omega)
    · exact c9_glue b0 [b1, b2] b3 [] c 4 hdec hlen (by omega) (by simp)
        (decodeRune_prefix_of_short b0 [b1, b2] sz lo hi husa hb080 hsz0
          (by simp only [List.length_cons, List.length_nil]; omega))
        (fullRune_three b0 b1 b2 sz lo hi husa hb080 (by omega)
          hb1lo hb1hi hb2lo hb2hi)
        (by omega) (by omega)
  · -- five or more bytes: impossible, decode sizes stop at 4
    exfalso
    simp only [List.length_cons] at hlen
    omega

theorem c9_utf8_split_witness :
    decodeRune [0xC3, 0xA9] = (0xE9, 2) ∧
    (Parser.Advance Parser.new (([0xC3, 0xA9] : List Nat).take 1)).2 ++
      (Parser.Advance
        (Parser.Advance Parser.new (([0xC3, 0xA9] : List Nat).take 1)).1
        (([0xC3, 0xA9] : List Nat).drop 1)).2 = [.print 0xE9] :=
  ⟨by decide,
    c9_utf8_split [0xC3, 0xA9] 0xE9 2 1 (by decide) (by decide) (by decide)
      (by decide) (by decide)⟩

end GoVTE
